import Mathlib

/-!
Verification of the `store_parser` crawler against its design specification.

The Python sources under `src/` are shallowly embedded below:

* `src/parser.py`   — `GGStoreParser` (extraction / normalization / dedup),
* `src/checklist.py` and `src/checklist_manager.py` — the job/session ledger,
* `src/downloader.py` — `ImageDownloader`,
* `src/crawler.py`  — pagination of `GGStoreCrawler.get_product_urls`,
* `src/models.py`   — `CrawlResult` and friends.

Strings are modelled as `List Char` in the scanning helpers (converted at the
boundary), timestamps as natural numbers (seconds), and the Python standard
library functions that the sources call (`urllib.parse.urlparse`,
`urllib.parse.urljoin`, `html.unescape`, `pathlib.Path.suffix`, `str.strip`,
`str.split`) are modelled over the same representation, restricted where noted
in the corresponding doc comments.  External effects (HTTP fetches, the file
system, the rendering browser) are modelled as explicit environments.
-/

namespace StoreParser

/-! ## Generic character/list helpers (models of Python `str` methods) -/

/-- Characters treated as whitespace by Python `str.strip()` / `str.split()`
(ASCII subset: space, tab, newline, carriage return, vertical tab, form feed). -/
def isPyWs (c : Char) : Bool :=
  c = ' ' || c = '\t' || c = '\n' || c = '\r' || c = Char.ofNat 11 || c = Char.ofNat 12

/-- Python `str.strip()` (no argument): drop whitespace from both ends. -/
def pyStrip (l : List Char) : List Char :=
  ((l.dropWhile isPyWs).reverse.dropWhile isPyWs).reverse

/-- Python `str.strip(c)` for a single character argument. -/
def stripChar (c : Char) (l : List Char) : List Char :=
  ((l.dropWhile (· = c)).reverse.dropWhile (· = c)).reverse

theorem dropWhile_length_le (p : Char → Bool) (l : List Char) :
    (l.dropWhile p).length ≤ l.length := by
  induction l with
  | nil => simp
  | cons c rest ih =>
    by_cases h : p c
    · simp only [List.dropWhile_cons, h, if_true]
      exact Nat.le_succ_of_le ih
    · simp [List.dropWhile_cons, h]

/-- Python `str.split()` (no argument), fuelled so that it computes by kernel
reduction: tokens separated by whitespace runs, with no empty tokens.  Each
step consumes at least one character, so `l.length` fuel always suffices. -/
def splitWsFuel : Nat → List Char → List (List Char)
  | 0, _ => []
  | _ + 1, [] => []
  | fuel + 1, c :: rest =>
    if isPyWs c then splitWsFuel fuel rest
    else
      let tok := c :: rest.takeWhile (fun d => ¬ isPyWs d)
      tok :: splitWsFuel fuel (rest.dropWhile (fun d => ¬ isPyWs d))

/-- Python `str.split()` (no argument). -/
def splitWsTokens (l : List Char) : List (List Char) := splitWsFuel l.length l

/-- Boolean prefix test on character lists. -/
def hasPrefixL : List Char → List Char → Bool
  | [], _ => true
  | _ :: _, [] => false
  | p :: ps, c :: cs => p = c && hasPrefixL ps cs

/-- Case-insensitive prefix test (ASCII lowering), for `re.IGNORECASE` scans. -/
def hasPrefixCI : List Char → List Char → Bool
  | [], _ => true
  | _ :: _, [] => false
  | p :: ps, c :: cs => p.toLower = c.toLower && hasPrefixCI ps cs

/-- Substring test (`pat in s` in Python). -/
def containsSub (pat : List Char) : List Char → Bool
  | [] => hasPrefixL pat []
  | c :: rest => hasPrefixL pat (c :: rest) || containsSub pat rest

/-- Case-insensitive substring test. -/
def containsSubCI (pat : List Char) : List Char → Bool
  | [] => hasPrefixCI pat []
  | c :: rest => hasPrefixCI pat (c :: rest) || containsSubCI pat rest

/-- Split at the first occurrence of character `c`: `(before, some after)` when
found, `(l, none)` otherwise. -/
def splitFirstChar (c : Char) : List Char → List Char × Option (List Char)
  | [] => ([], none)
  | x :: xs =>
    if x = c then ([], some xs)
    else
      let r := splitFirstChar c xs
      (x :: r.1, r.2)

/-! ## Models of `urllib.parse` used by the sources

`urlPath` models `urlparse(url).path`; `urljoinBase` models
`urljoin("https://ggstore.com", rel)` as called from `GGStoreParser`
(dot-segment resolution and scheme lower-casing of foreign schemes are omitted,
they are not exercised by the storefront URLs); `stripQueryUrl` models
`urlparse(url)._replace(query='').geturl()`. -/

/-- Characters allowed in a URL scheme after the leading letter. -/
def schemeChar (c : Char) : Bool :=
  c.isAlphanum || c = '+' || c = '-' || c = '.'

/-- Split a leading `scheme:` when the text before the first `:` is a valid
scheme (nonempty, leading letter, scheme characters only), as `urlsplit` does. -/
def schemeSplitAux : List Char → Option (List Char) → Option (List Char × List Char)
  | _, none => none
  | [], some _ => none
  | c :: cs, some rest =>
    if c.isAlpha && (c :: cs).all schemeChar then some (c :: cs, rest) else none

/-- Split a leading `scheme:` from the text before the first `:` when it is a
valid scheme (nonempty, leading letter, scheme characters only). -/
def schemeSplit (l : List Char) : Option (List Char × List Char) :=
  schemeSplitAux (splitFirstChar ':' l).1 (splitFirstChar ':' l).2

/-- Drop everything from the first `?` on (the query part). -/
def dropQuery (l : List Char) : List Char := (splitFirstChar '?' l).1

/-- Model of `urlparse(url).path`: remove fragment, scheme and authority,
then the query. -/
def urlPath (l : List Char) : List Char :=
  let nofrag := (splitFirstChar '#' l).1
  let r0 := match schemeSplit nofrag with
    | some sr => sr.2
    | none => nofrag
  let r1 := if hasPrefixL "//".toList r0 then
      (r0.drop 2).dropWhile (fun c => ¬ (c = '/' || c = '?'))
    else r0
  dropQuery r1

/-- Model of `urlparse(u)._replace(query='').geturl()`: the query is removed,
the fragment (if any) is kept. -/
def stripQueryUrl (l : List Char) : List Char :=
  match (splitFirstChar '#' l).2 with
  | none => dropQuery (splitFirstChar '#' l).1
  | some frag => dropQuery (splitFirstChar '#' l).1 ++ '#' :: frag

/-- The parser's base URL (`GGStoreParser.__init__` default). -/
def baseUrl : List Char := "https://ggstore.com".toList

/-- Model of `urljoin("https://ggstore.com", rel)` for relative references as
produced by the storefront markup.  A reference with its own scheme other than
`https` is returned unchanged; an `https`-scheme reference keeps its authority
when present and is otherwise resolved against the base; scheme-less
references are resolved against the base (whose path is empty). -/
def urljoinBaseCore : Option (List Char × List Char) → List Char → List Char
  | some (s, r), rel =>
    if s.map Char.toLower = "https".toList then
      if hasPrefixL "//".toList r then "https:".toList ++ r
      else "https://ggstore.com/".toList ++ r
    else rel
  | none, rel =>
    if hasPrefixL "/".toList rel then baseUrl ++ rel
    else if hasPrefixL "?".toList rel || hasPrefixL "#".toList rel then baseUrl ++ rel
    else "https://ggstore.com/".toList ++ rel

/-- Model of `urljoin("https://ggstore.com", rel)` as dispatched on the
reference's scheme. -/
def urljoinBase (rel : List Char) : List Char :=
  if rel = [] then baseUrl else urljoinBaseCore (schemeSplit rel) rel

/-! ## `GGStoreParser` (src/parser.py) -/

/-- Entity table used by the model of Python `html.unescape`, longest match
first: the named references for ampersand, angle brackets, quote and
apostrophe, in the forms (with and without trailing semicolon) that the HTML5
reference table of the standard library resolves. -/
def entityTable : List (List Char × Char) :=
  [("amp;".toList, '&'), ("amp".toList, '&'),
   ("lt;".toList, '<'), ("lt".toList, '<'),
   ("gt;".toList, '>'), ("gt".toList, '>'),
   ("quot;".toList, '"'), ("quot".toList, '"'),
   ("#39;".toList, '\'')]

/-- One entity lookup at a position right after a `&`. -/
def matchEntity (rest : List Char) : Option (Char × Nat) :=
  (entityTable.find? (fun e => hasPrefixL e.1 rest)).map (fun e => (e.2, e.1.length))

/-- Model of Python `html.unescape`, restricted to `entityTable`.  Replaced
text is not rescanned (as with `re.sub`).  The fuel argument is an upper bound
on the number of scanning steps; each step consumes at least one character, so
`l.length` steps always suffice (see `htmlUnescape`). -/
def unescapeFuel : Nat → List Char → List Char
  | 0, l => l
  | _ + 1, [] => []
  | fuel + 1, '&' :: rest =>
    match matchEntity rest with
    | some (r, k) => r :: unescapeFuel fuel (rest.drop k)
    | none => '&' :: unescapeFuel fuel rest
  | fuel + 1, c :: rest => c :: unescapeFuel fuel rest

/-- Model of `html.unescape` (restricted to `entityTable`). -/
def htmlUnescape (l : List Char) : List Char := unescapeFuel l.length l

/-- The scheme-fixing step of `_normalize_url`: upgrade protocol-relative
URLs to `https:`, pass `http`-prefixed URLs through, resolve the rest against
the base URL. -/
def schemeFix (u : List Char) : List Char :=
  if hasPrefixL "//".toList u then "https:".toList ++ u
  else if hasPrefixL "http".toList u then u
  else urljoinBase u

/-- `GGStoreParser._normalize_url`: decode HTML entities, fix the scheme,
then drop the query string. -/
def normalizeUrlL (l : List Char) : List Char :=
  stripQueryUrl (schemeFix (htmlUnescape l))

/-- String-level wrapper for `GGStoreParser._normalize_url`. -/
def normalize_url (s : String) : String := ⟨normalizeUrlL s.toList⟩

/-- `GGStoreParser.IMAGE_EXTENSIONS`. -/
def IMAGE_EXTENSIONS : List (List Char) :=
  [".jpg".toList, ".jpeg".toList, ".png".toList, ".webp".toList, ".gif".toList]

/-- List-ending test. -/
def hasSuffixL (pat l : List Char) : Bool :=
  hasPrefixL pat.reverse l.reverse

/-- `GGStoreParser._is_product_image`: nonempty, CDN-hosted
(`'cdn/shop/' in url`) and carrying a recognized image extension, checked as a
path suffix, as a substring followed by `?`, or finally as a bare substring of
the (lowercased) URL path. -/
def is_product_image (url : List Char) : Bool :=
  if url = [] then false
  else if ¬ containsSub "cdn/shop/".toList url then false
  else
    let url_path := (urlPath url).map Char.toLower
    let hasExt := IMAGE_EXTENSIONS.any fun ext =>
      hasSuffixL ext url_path || containsSub (ext ++ ['?']) url_path
    hasExt || IMAGE_EXTENSIONS.any (fun ext => containsSub ext url_path)

/-- `GGStoreParser._extract_product_id`: the path segment following
`products`, else the slash-stripped path with `/` replaced by `-`. -/
def extract_product_id (url : String) : String :=
  let path := urlPath url.toList
  let stripped := stripChar '/' path
  let parts := stripped.splitOn '/'
  let pl := "products".toList
  if parts.contains pl then
    let idx := parts.indexOf pl
    if idx + 1 < parts.length then ⟨parts.getD (idx + 1) []⟩
    else ⟨stripped.map (fun c => if c = '/' then '-' else c)⟩
  else ⟨stripped.map (fun c => if c = '/' then '-' else c)⟩

/-! ### Regex scans of `_extract_image_urls`

Each Python pattern of `_extract_image_urls` is a `finditer` scan.  The
matchers below model one attempted match at the current position; the `scan*`
drivers advance one character on failure and past the whole match on success,
exactly as `finditer` does.  The fuel argument bounds the number of scanning
steps; every step consumes at least one character, so `l.length + 1` always
suffices. -/

/-- Attempted match of `key["']([^"']+)["']` (case-insensitive key) at the
current position, with an extra admission predicate on the captured value for
the inline `(?:cdn/shop/(?:files|products)/)` group of pattern 2.  Returns the
capture and the remainder after the closing quote. -/
def matchAttrAt (key : List Char) (ok : List Char → Bool) (s : List Char) :
    Option (List Char × List Char) :=
  if hasPrefixCI key s then
    let t := s.drop key.length
    match t with
    | [] => none
    | q :: u =>
      if q = '"' || q = '\'' then
        let v := u.takeWhile (fun c => ¬ (c = '"' || c = '\''))
        match u.drop v.length with
        | [] => none
        | _ :: rest2 => if v = [] || ¬ ok v then none else some (v, rest2)
      else none
  else none

/-- `finditer` driver for `matchAttrAt`. -/
def scanAttr (key : List Char) (ok : List Char → Bool) : Nat → List Char → List (List Char)
  | 0, _ => []
  | _ + 1, [] => []
  | fuel + 1, c :: rest =>
    match matchAttrAt key ok (c :: rest) with
    | some (v, r) => v :: scanAttr key ok fuel r
    | none => scanAttr key ok fuel rest

/-- The value predicate of pattern 2's regex
`[^"']+(?:cdn/shop/(?:files|products)/)[^"']+` (case-insensitive): the value
contains `cdn/shop/files/` or `cdn/shop/products/` with at least one character
on each side. -/
def srcValueOk (v : List Char) : Bool :=
  let inner (pat : List Char) : Bool :=
    (List.range v.length).any fun i =>
      0 < i && hasPrefixCI pat (v.drop i) && i + pat.length < v.length
  inner "cdn/shop/files/".toList || inner "cdn/shop/products/".toList

/-- The value predicate of pattern 4's regex `[^"]+cdn/shop/[^"]+`
(case-insensitive). -/
def jsonValueOk (v : List Char) : Bool :=
  (List.range v.length).any fun i =>
    0 < i && hasPrefixCI "cdn/shop/".toList (v.drop i)
      && i + "cdn/shop/".length < v.length

/-- Attempted match of pattern 4, `"src":\s*"([^"]+cdn/shop/[^"]+)"`
(case-insensitive), at the current position. -/
def matchJsonAt (s : List Char) : Option (List Char × List Char) :=
  if hasPrefixCI "\"src\":".toList s then
    let t := (s.drop 6).dropWhile isPyWs
    match t with
    | [] => none
    | q :: u =>
      if q = '"' then
        let v := u.takeWhile (fun c => ¬ c = '"')
        match u.drop v.length with
        | [] => none
        | _ :: rest2 => if v = [] || ¬ jsonValueOk v then none else some (v, rest2)
      else none
  else none

/-- `finditer` driver for `matchJsonAt`. -/
def scanJson : Nat → List Char → List (List Char)
  | 0, _ => []
  | _ + 1, [] => []
  | fuel + 1, c :: rest =>
    match matchJsonAt (c :: rest) with
    | some (v, r) => v :: scanJson fuel r
    | none => scanJson fuel rest

/-- Python `url.replace('\\/', '/')` of pattern 4. -/
def unescapeSlashes : List Char → List Char
  | '\\' :: '/' :: rest => '/' :: unescapeSlashes rest
  | c :: rest => c :: unescapeSlashes rest
  | [] => []

/-- Processing of one `srcset` attribute value: split on commas, take the
first whitespace token of each candidate (`src.strip().split()[0]`, an
`IndexError` — modelled as `Except.error` — when a candidate is empty),
filter and normalize.  Candidates are accumulated in encounter order. -/
def srcsetCandidates (v : List Char) : Except Unit (List String) :=
  (v.splitOn ',').foldlM
    (fun acc part =>
      match splitWsTokens part with
      | [] => .error ()
      | u :: _ =>
        if is_product_image u then pure (acc ++ [⟨normalizeUrlL u⟩]) else pure acc)
    []

/-- All normalized, filter-accepted image URL candidates of
`GGStoreParser._extract_image_urls`, in encounter order (pattern 1 through
pattern 4), duplicates included.  In the source the candidates are inserted
into a Python `set`; the encounter order is recorded here because the final
result only depends on the set of candidates. -/
def imageCandidates (html : List Char) : Except Unit (List String) := do
  let fuel := html.length + 1
  let p1 ← (scanAttr "srcset=".toList (fun _ => true) fuel html).foldlM
    (fun acc v => do
      let cs ← srcsetCandidates v
      pure (acc ++ cs))
    []
  let keep (acc : List String) (v : List Char) : List String :=
    if is_product_image v then acc ++ [⟨normalizeUrlL v⟩] else acc
  let p2 := (scanAttr "src=".toList srcValueOk fuel html).foldl keep []
  let p3 := (scanAttr "data-src=".toList (fun _ => true) fuel html).foldl keep []
  let p4 := ((scanJson fuel html).map unescapeSlashes).foldl keep []
  pure (p1 ++ p2 ++ p3 ++ p4)

/-- Lexicographic (code-point) comparison of character lists, the order Python
`sorted` uses on strings. -/
def ltStrL : List Char → List Char → Bool
  | [], [] => false
  | [], _ :: _ => true
  | _ :: _, [] => false
  | a :: as, b :: bs => if a < b then true else if b < a then false else ltStrL as bs

/-- Lexicographic comparison of strings. -/
def ltStr (s t : String) : Bool := ltStrL s.toList t.toList

/-- Ordered duplicate-free insertion, the building block of the
`sorted(set(...))` model. -/
def insertOrd (x : String) : List String → List String
  | [] => [x]
  | y :: ys => if ltStr x y then x :: y :: ys else if x = y then y :: ys else y :: insertOrd x ys

/-- Model of Python `sorted(image_urls)` for a `set` built from the listed
candidates: the strictly increasing enumeration of the distinct elements. -/
def sortDedup (l : List String) : List String := l.foldl (fun acc x => insertOrd x acc) []

/-- `GGStoreParser._extract_image_urls`: union the four patterns' accepted,
normalized candidates as a set and return them sorted. -/
def extract_image_urls (html : String) : Except Unit (List String) :=
  (imageCandidates html.toList).map sortDedup

/-! ### Name, price and category extraction (src/parser.py) -/

/-- Leftmost-match driver for a position matcher, modelling `re.search`. -/
def searchFirst (m : List Char → Option (List Char)) : Nat → List Char → Option (List Char)
  | 0, _ => none
  | _ + 1, [] => none
  | fuel + 1, c :: rest =>
    match m (c :: rest) with
    | some v => some v
    | none => searchFirst m fuel rest

/-- Scan the `[^>]*` span of the og:title meta pattern for
`property=["']og:title["']`; returns the remainder after the closing quote. -/
def scanForProperty : Nat → List Char → Option (List Char)
  | 0, _ => none
  | _ + 1, [] => none
  | fuel + 1, c :: rest =>
    if c = '>' then none
    else
      if hasPrefixCI "property=".toList (c :: rest) then
        match (c :: rest).drop 9 with
        | q :: u =>
          if (q = '"' || q = '\'') && hasPrefixCI "og:title".toList u then
            match u.drop 8 with
            | q2 :: v =>
              if q2 = '"' || q2 = '\'' then some v else scanForProperty fuel rest
            | [] => scanForProperty fuel rest
          else scanForProperty fuel rest
        | [] => scanForProperty fuel rest
      else scanForProperty fuel rest

/-- Scan the second `[^>]*` span for `content=["']([^"']+)["']`; returns the
capture (which, as in the regex, may itself contain `>`). -/
def scanForContent : Nat → List Char → Option (List Char)
  | 0, _ => none
  | _ + 1, [] => none
  | fuel + 1, c :: rest =>
    if c = '>' then none
    else
      if hasPrefixCI "content=".toList (c :: rest) then
        match (c :: rest).drop 8 with
        | q :: u =>
          if q = '"' || q = '\'' then
            let v := u.takeWhile (fun d => ¬ (d = '"' || d = '\''))
            match u.drop v.length with
            | _ :: _ => if v = [] then scanForContent fuel rest else some v
            | [] => scanForContent fuel rest
          else scanForContent fuel rest
        | [] => scanForContent fuel rest
      else scanForContent fuel rest

/-- Position matcher for
`<meta[^>]*property=["']og:title["'][^>]*content=["']([^"']+)["']`. -/
def matchOgAt (s : List Char) : Option (List Char) :=
  if hasPrefixCI "<meta".toList s then
    match scanForProperty ((s.drop 5).length + 1) (s.drop 5) with
    | some v => scanForContent (v.length + 1) v
    | none => none
  else none

/-- Position matcher for `<title>([^<]+)</title>`. -/
def matchTitleAt (s : List Char) : Option (List Char) :=
  if hasPrefixCI "<title>".toList s then
    let u := s.drop 7
    let v := u.takeWhile (· ≠ '<')
    if v ≠ [] && hasPrefixCI "</title>".toList (u.drop v.length) then some v else none
  else none

/-- Position matcher for `<h1[^>]*>([^<]+)</h1>`. -/
def matchH1At (s : List Char) : Option (List Char) :=
  if hasPrefixCI "<h1".toList s then
    let w := s.drop 3
    let a := w.takeWhile (· ≠ '>')
    match w.drop a.length with
    | _ :: u =>
      let v := u.takeWhile (· ≠ '<')
      if v ≠ [] && hasPrefixCI "</h1>".toList (u.drop v.length) then some v else none
    | [] => none
  else none

/-- `GGStoreParser._extract_product_name`: og:title meta tag, then document
title with site-name suffixes split off at `|` and `–`, then first `h1`,
then the `"Unknown Product"` sentinel. -/
def extract_product_name (html : List Char) : String :=
  let n := html.length + 1
  match searchFirst matchOgAt n html with
  | some v => ⟨pyStrip v⟩
  | none =>
    match searchFirst matchTitleAt n html with
    | some t =>
      let t1 := pyStrip t
      let t2 := if t1.contains '|' then pyStrip (t1.takeWhile (· ≠ '|')) else t1
      let t3 := if t2.contains '–' then pyStrip (t2.takeWhile (· ≠ '–')) else t2
      ⟨t3⟩
    | none =>
      match searchFirst matchH1At n html with
      | some v => ⟨pyStrip v⟩
      | none => "Unknown Product"

/-- Scan the `<span` tag span for `class=["'][^"']*price[^"']*["']`; returns
the remainder after the closing quote. -/
def scanForClassPrice : Nat → List Char → Option (List Char)
  | 0, _ => none
  | _ + 1, [] => none
  | fuel + 1, c :: rest =>
    if c = '>' then none
    else
      if hasPrefixCI "class=".toList (c :: rest) then
        match (c :: rest).drop 6 with
        | q :: u =>
          if q = '"' || q = '\'' then
            let v := u.takeWhile (fun d => ¬ (d = '"' || d = '\''))
            match u.drop v.length with
            | _ :: rem =>
              if containsSubCI "price".toList v then some rem
              else scanForClassPrice fuel rest
            | [] => scanForClassPrice fuel rest
          else scanForClassPrice fuel rest
        | [] => scanForClassPrice fuel rest
      else scanForClassPrice fuel rest

/-- Position matcher for the first price pattern
`<span[^>]*class=["'][^"']*price[^"']*["'][^>]*>\s*\$?([\d,.]+)`. -/
def matchPriceSpanAt (s : List Char) : Option (List Char) :=
  if hasPrefixCI "<span".toList s then
    let w := s.drop 5
    match scanForClassPrice (w.length + 1) w with
    | some rem =>
      let a := rem.takeWhile (· ≠ '>')
      match rem.drop a.length with
      | _ :: u =>
        let u2 := u.dropWhile isPyWs
        let u3 := match u2 with
          | '$' :: r => r
          | _ => u2
        let cap := u3.takeWhile (fun d => d.isDigit || d = ',' || d = '.')
        if cap = [] then none else some cap
      | [] => none
    | none => none
  else none

/-- Position matcher for the second price pattern `"price":\s*"?\$?([\d,.]+)`. -/
def matchJsonPriceAt (s : List Char) : Option (List Char) :=
  if hasPrefixCI "\"price\":".toList s then
    let u := (s.drop 8).dropWhile isPyWs
    let u2 := match u with
      | '"' :: r => r
      | _ => u
    let u3 := match u2 with
      | '$' :: r => r
      | _ => u2
    let cap := u3.takeWhile (fun d => d.isDigit || d = ',' || d = '.')
    if cap = [] then none else some cap
  else none

/-- Position matcher for the third price pattern `data-price=["'](\d+)`. -/
def matchDataPriceAt (s : List Char) : Option (List Char) :=
  if hasPrefixCI "data-price=".toList s then
    match s.drop 11 with
    | q :: u =>
      if q = '"' || q = '\'' then
        let cap := u.takeWhile (·.isDigit)
        if cap = [] then none else some cap
      else none
    | [] => none
  else none

/-- `GGStoreParser._extract_price`: the three patterns in priority order, the
first capture formatted as a `$`-prefixed string; `none` when nothing
matches. -/
def extract_price (html : List Char) : Option String :=
  let n := html.length + 1
  match searchFirst matchPriceSpanAt n html with
  | some cap => some ⟨'$' :: cap⟩
  | none =>
    match searchFirst matchJsonPriceAt n html with
    | some cap => some ⟨'$' :: cap⟩
    | none =>
      match searchFirst matchDataPriceAt n html with
      | some cap => some ⟨'$' :: cap⟩
      | none => none

/-- Position matcher for the category pattern `/collections/([^/"'?\s]+)`
(case-sensitive). -/
def matchCategoryAt (s : List Char) : Option (List Char) :=
  if hasPrefixL "/collections/".toList s then
    let cap := (s.drop 13).takeWhile
      (fun c => ¬ (c = '/' || c = '"' || c = '\'' || c = '?' || isPyWs c))
    if cap = [] then none else some cap
  else none

/-- `GGStoreParser._extract_category`: first collection-path fragment,
upper-cased with `-` replaced by spaces, unless it is the `all` sentinel. -/
def extract_category (html : List Char) : Option String :=
  match searchFirst matchCategoryAt (html.length + 1) html with
  | some cap =>
    if cap.map Char.toLower = "all".toList then none
    else some ⟨(cap.map Char.toUpper).map (fun c => if c = '-' then ' ' else c)⟩
  | none => none

/-- The dictionary returned by `GGStoreParser.parse_product`. -/
structure ProductCandidate where
  id : String
  name : String
  url : String
  price : Option String
  category : Option String
  image_urls : List String
deriving DecidableEq, Repr

/-- `GGStoreParser.parse_product`.  The only failure point of the Python body
is the `IndexError` inside `_extract_image_urls` (modelled as
`Except.error`); the remaining extractors are total. -/
def parse_product (html url : String) : Except Unit ProductCandidate := do
  let image_urls ← extract_image_urls html
  pure {
    id := extract_product_id url
    name := extract_product_name html.toList
    url := url
    price := extract_price html.toList
    category := extract_category html.toList
    image_urls := image_urls }

/-! ## Data models (src/models.py and src/checklist.py)

Timestamps (`datetime`) are modelled as natural numbers (seconds). -/

/-- `models.ProductImage`. -/
structure ProductImage where
  filename : String
  original_url : String
  local_path : String
  downloaded_at : Nat
deriving DecidableEq, Repr

/-- `models.Product`. -/
structure Product where
  id : String
  name : String
  url : String
  price : Option String := none
  category : Option String := none
  images : List ProductImage := []
  crawled_at : Nat
deriving DecidableEq, Repr

/-- `models.CrawlResult`. -/
structure CrawlResult where
  products : List Product := []
  crawled_at : Nat
  total_products : Nat := 0
  total_images : Nat := 0
deriving DecidableEq, Repr

/-- `models.CrawlResult.add_product`. -/
def CrawlResult.add_product (r : CrawlResult) (p : Product) : CrawlResult :=
  let products := r.products ++ [p]
  { r with
    products := products
    total_products := products.length
    total_images := (products.map (fun q => q.images.length)).sum }

/-- `checklist.JobStatus`. -/
inductive JobStatus where
  | pending
  | in_progress
  | completed
  | failed
  | paused
deriving DecidableEq, Repr

/-- `checklist.JobType`. -/
inductive JobType where
  | full_crawl
  | incremental
  | retry_failed
  | single_product
deriving DecidableEq, Repr

/-- `checklist.ErrorType`. -/
inductive ErrorType where
  | crawl_failed
  | parse_failed
  | download_failed
  | timeout
deriving DecidableEq, Repr

/-- `checklist.SessionProgress`. -/
structure SessionProgress where
  products_discovered : Nat := 0
  products_crawled : Nat := 0
  products_skipped : Nat := 0
  images_downloaded : Nat := 0
  images_failed : Nat := 0
  current_page : Nat := 1
  last_product_url : Option String := none
deriving DecidableEq, Repr

/-- `checklist.CurrentSession`. -/
structure CurrentSession where
  id : String
  started_at : Nat
  status : JobStatus := .pending
  agent : Option String := none
  progress : SessionProgress := {}
deriving DecidableEq, Repr

/-- `checklist.JobConfig`.  The float `delay_seconds` is modelled in tenths of
a second. -/
structure JobConfig where
  headless : Bool := true
  delay_tenths : Nat := 15
  max_concurrent_downloads : Nat := 5
  skip_existing : Bool := true
  output_dir : String := "data/images"
  metadata_file : String := "data/metadata.json"
deriving DecidableEq, Repr

/-- `checklist.JobExecution`. -/
structure JobExecution where
  agent : Option String := none
  started_at : Option Nat := none
  completed_at : Option Nat := none
  duration_seconds : Option Nat := none
deriving DecidableEq, Repr

/-- `checklist.JobResult`. -/
structure JobResult where
  success : Bool := false
  total_products : Nat := 0
  total_images : Nat := 0
  new_products : Nat := 0
  new_images : Nat := 0
  skipped_products : Nat := 0
  failed_downloads : Nat := 0
  error_message : Option String := none
deriving DecidableEq, Repr

/-- `checklist.CrawlJob`. -/
structure CrawlJob where
  id : String
  type : JobType
  status : JobStatus := .pending
  priority : String := "medium"
  execution : JobExecution := {}
  config : JobConfig := {}
  result : Option JobResult := none
  files_modified : List String := []
deriving DecidableEq, Repr

/-- `checklist.ProductCrawlInfo`. -/
structure ProductCrawlInfo where
  first_seen : Nat
  last_crawled : Nat
  crawl_count : Nat := 1
  job_id : String
deriving DecidableEq, Repr

/-- `checklist.ProductImageStatus`. -/
structure ProductImageStatus where
  total : Nat := 0
  downloaded : Nat := 0
  failed : Nat := 0
  status : JobStatus := .pending
deriving DecidableEq, Repr

/-- `checklist.ProductPrice`. -/
structure ProductPrice where
  current : Option String := none
  last_seen : Option Nat := none
deriving DecidableEq, Repr

/-- `checklist.ProductEntry`. -/
structure ProductEntry where
  id : String
  name : String
  url : String
  status : JobStatus := .pending
  crawl_info : Option ProductCrawlInfo := none
  images : ProductImageStatus := {}
  price : ProductPrice := {}
  category : Option String := none
  errors : List String := []
deriving DecidableEq, Repr

/-- `checklist.ErrorEntry`. -/
structure ErrorEntry where
  id : String
  timestamp : Nat
  job_id : String
  product_id : Option String := none
  type : ErrorType
  url : Option String := none
  message : String
  retry_count : Nat := 0
  resolved : Bool := false
deriving DecidableEq, Repr

/-- `checklist.JobStats`. -/
structure JobStats where
  total : Nat := 0
  completed : Nat := 0
  failed : Nat := 0
  pending : Nat := 0
deriving DecidableEq, Repr

/-- `checklist.DownloadStats`. -/
structure DownloadStats where
  successful : Nat := 0
  failed : Nat := 0
  skipped : Nat := 0
deriving DecidableEq, Repr

/-- `checklist.Stats`.  The `by_category` dict is modelled as an association
list in insertion order. -/
structure Stats where
  total_products : Nat := 0
  total_images : Nat := 0
  jobs : JobStats := {}
  downloads : DownloadStats := {}
  by_category : List (String × Nat) := []
  last_full_crawl : Option Nat := none
  last_incremental : Option Nat := none
  average_crawl_time_seconds : Option Nat := none
deriving DecidableEq, Repr

/-- `checklist.MetadataSync`. -/
structure MetadataSync where
  file : String := "data/metadata.json"
  last_sync : Option Nat := none
  products_in_metadata : Nat := 0
  images_in_metadata : Nat := 0
  sync_status : String := "in_sync"
deriving DecidableEq, Repr

/-- `checklist.StoreParserChecklist`. -/
structure StoreParserChecklist where
  version : String := "1.0"
  project : String := "ggp_store_parser"
  target_site : String := "https://ggstore.com"
  platform : String := "Shopify"
  created_at : Nat := 0
  updated_at : Nat := 0
  current_session : Option CurrentSession := none
  jobs : List CrawlJob := []
  products : List ProductEntry := []
  errors : List ErrorEntry := []
  stats : Stats := {}
  metadata_sync : MetadataSync := {}
deriving DecidableEq, Repr

/-! ## `ChecklistManager` (src/checklist_manager.py)

Each method of the manager is a pure state transformer here; `datetime.now()`
and `uuid.uuid4()` become explicit arguments.  `MgrState.disk` models the
parsed content of the ledger file; `StoreParserChecklist.save` (which stamps
`updated_at` and rewrites the whole document) becomes `doSave`. -/

/-- Python truthiness of an `str | None` value (`if price:` style checks):
present and nonempty. -/
def optStrTruthy : Option String → Bool
  | none => false
  | some s => ¬ s = ""

/-- `f"{n:0{w}d}"`: decimal representation left-padded with zeros. -/
def padNum (w : Nat) (n : Nat) : String :=
  let s := toString n
  ⟨List.replicate (w - s.length) '0' ++ s.toList⟩

/-- `ChecklistManager._find_product`. -/
def find_product (ps : List ProductEntry) (pid : String) : Option ProductEntry :=
  ps.find? (fun p => p.id == pid)

/-- `ChecklistManager._find_job`. -/
def find_job (js : List CrawlJob) (jid : String) : Option CrawlJob :=
  js.find? (fun j => j.id == jid)

/-- In-place mutation of the first product entry with the given id (Python
mutates the object returned by `_find_product`). -/
def updateFirstProduct (pid : String) (f : ProductEntry → ProductEntry) :
    List ProductEntry → List ProductEntry
  | [] => []
  | p :: ps => if p.id == pid then f p :: ps else p :: updateFirstProduct pid f ps

/-- In-place mutation of the first job with the given id. -/
def updateFirstJob (jid : String) (f : CrawlJob → CrawlJob) :
    List CrawlJob → List CrawlJob
  | [] => []
  | j :: js => if j.id == jid then f j :: js else j :: updateFirstJob jid f js

/-- In-place mutation of the first error entry with the given id. -/
def updateFirstError (eid : String) (f : ErrorEntry → ErrorEntry) :
    List ErrorEntry → List ErrorEntry
  | [] => []
  | e :: es => if e.id == eid then f e :: es else e :: updateFirstError eid f es

/-- Lookup in the `by_category` association list (`dict` access). -/
def lookupCat : List (String × Nat) → String → Nat
  | [], _ => 0
  | kv :: r, c => if kv.1 == c then kv.2 else lookupCat r c

/-- Increment the first binding of a key. -/
def incFirst : List (String × Nat) → String → List (String × Nat)
  | [], _ => []
  | kv :: r, c => if kv.1 == c then (kv.1, kv.2 + 1) :: r else kv :: incFirst r c

/-- `if category not in by_category: by_category[category] = 0` followed by
`by_category[category] += 1`. -/
def bumpCat (d : List (String × Nat)) (c : String) : List (String × Nat) :=
  if d.any (fun kv => kv.1 == c) then incFirst d c else d ++ [(c, 1)]

/-- Argument record of `ChecklistManager.add_or_update_product`. -/
structure UpsertArgs where
  product_id : String
  name : String
  url : String
  job_id : String
  status : JobStatus := .completed
  image_count : Nat := 0
  downloaded_count : Nat := 0
  failed_count : Nat := 0
  price : Option String := none
  category : Option String := none
deriving DecidableEq, Repr

/-- The update arm of `add_or_update_product` applied to an existing entry. -/
def updateEntry (e : ProductEntry) (a : UpsertArgs) (now : Nat) : ProductEntry :=
  let e1 := { e with status := a.status }
  let e2 := match e1.crawl_info with
    | some ci =>
      let ci2 := { ci with last_crawled := now, crawl_count := ci.crawl_count + 1, job_id := a.job_id }
      { e1 with crawl_info := some ci2 }
    | none => e1
  let e3 := { e2 with images :=
    { total := a.image_count, downloaded := a.downloaded_count,
      failed := a.failed_count, status := a.status } }
  let e4 :=
    if optStrTruthy a.price then
      { e3 with price := { current := a.price, last_seen := some now } }
    else e3
  if optStrTruthy a.category then { e4 with category := a.category } else e4

/-- The creation arm of `add_or_update_product`. -/
def newEntry (a : UpsertArgs) (now : Nat) : ProductEntry :=
  { id := a.product_id
    name := a.name
    url := a.url
    status := a.status
    crawl_info := some
      { first_seen := now, last_crawled := now, crawl_count := 1, job_id := a.job_id }
    images :=
      { total := a.image_count, downloaded := a.downloaded_count,
        failed := a.failed_count, status := a.status }
    price :=
      { current := a.price
        last_seen := if optStrTruthy a.price then some now else none }
    category := a.category }

/-- `ChecklistManager.add_or_update_product` (without the trailing `save`,
which `step` performs): upsert keyed on the product identifier, maintaining
`stats.total_products` and the category histogram on creation. -/
def add_or_update_product (c : StoreParserChecklist) (a : UpsertArgs) (now : Nat) :
    StoreParserChecklist × ProductEntry :=
  match find_product c.products a.product_id with
  | some e =>
    ({ c with products := updateFirstProduct a.product_id (fun p => updateEntry p a now) c.products },
     updateEntry e a now)
  | none =>
    let p := newEntry a now
    let products := c.products ++ [p]
    let stats1 := { c.stats with total_products := products.length }
    let stats2 := match a.category with
      | some cat => if cat = "" then stats1 else { stats1 with by_category := bumpCat stats1.by_category cat }
      | none => stats1
    ({ c with products := products, stats := stats2 }, p)

/-- `ChecklistManager.sync_from_metadata` (without the trailing `save`). -/
def sync_from_metadata (c : StoreParserChecklist) (cr : CrawlResult) (now : Nat) :
    StoreParserChecklist :=
  { c with
    stats := { c.stats with
      total_products := cr.total_products
      total_images := cr.total_images
      downloads := { c.stats.downloads with successful := cr.total_images } }
    metadata_sync := { c.metadata_sync with
      last_sync := some now
      products_in_metadata := cr.total_products
      images_in_metadata := cr.total_images
      sync_status := "in_sync" } }

/-- The manager's in-memory checklist together with the parsed content of the
ledger file it persists to. -/
structure MgrState where
  checklist : StoreParserChecklist
  disk : StoreParserChecklist
deriving DecidableEq, Repr

/-- `StoreParserChecklist.save`: stamp `updated_at` and rewrite the whole
document on disk. -/
def doSave (now : Nat) (st : MgrState) : MgrState :=
  let c := { st.checklist with updated_at := now }
  ⟨c, c⟩

/-- The mutating operations of `ChecklistManager`, with every `datetime.now()`
(and the session id randomness) as explicit data. -/
inductive LedgerOp where
  | start_session (rand : String) (agent : String) (now : Nat)
  | update_session_progress
      (products_discovered products_crawled products_skipped : Option Nat)
      (images_downloaded images_failed current_page : Option Nat)
      (last_product_url : Option String) (now : Nat)
  | end_session (status : JobStatus) (now : Nat)
  | create_job (jobType : JobType) (config : Option JobConfig) (priority : String) (now : Nat)
  | start_job (jobId : String) (agent : String) (now : Nat)
  | complete_job (jobId : String) (result : JobResult) (now : Nat)
  | add_or_update (a : UpsertArgs) (now : Nat)
  | log_error (jobId : String) (etype : ErrorType) (message : String)
      (productId : Option String) (url : Option String) (now : Nat)
  | resolve_error (errorId : String) (now : Nat)
  | sync_metadata (cr : CrawlResult) (now : Nat)

/-- One `ChecklistManager` method call, persisting exactly where the source
calls `self.save()`. -/
def step (st : MgrState) : LedgerOp → MgrState
  | .start_session rand agent now =>
    let session : CurrentSession :=
      { id := "SESSION-" ++ rand
        started_at := now
        status := .in_progress
        agent := some agent
        progress := {} }
    doSave now { st with checklist := { st.checklist with current_session := some session } }
  | .update_session_progress pd pc ps imgD imgF cp lpu now =>
    match st.checklist.current_session with
    | none => st
    | some s =>
      let pr := s.progress
      let pr := match pd with | some v => { pr with products_discovered := v } | none => pr
      let pr := match pc with | some v => { pr with products_crawled := v } | none => pr
      let pr := match ps with | some v => { pr with products_skipped := v } | none => pr
      let pr := match imgD with | some v => { pr with images_downloaded := v } | none => pr
      let pr := match imgF with | some v => { pr with images_failed := v } | none => pr
      let pr := match cp with | some v => { pr with current_page := v } | none => pr
      let pr := match lpu with | some v => { pr with last_product_url := some v } | none => pr
      doSave now
        { st with checklist :=
          { st.checklist with current_session := some { s with progress := pr } } }
  | .end_session status now =>
    let c := match st.checklist.current_session with
      | some s => { st.checklist with current_session := some { s with status := status } }
      | none => st.checklist
    doSave now { st with checklist := c }
  | .create_job jobType config priority now =>
    let job : CrawlJob :=
      { id := "JOB-" ++ padNum 3 (st.checklist.jobs.length + 1)
        type := jobType
        status := .pending
        priority := priority
        config := config.getD {} }
    let stats := { st.checklist.stats with jobs :=
      { st.checklist.stats.jobs with
        total := st.checklist.stats.jobs.total + 1
        pending := st.checklist.stats.jobs.pending + 1 } }
    doSave now
      { st with checklist :=
        { st.checklist with jobs := st.checklist.jobs ++ [job], stats := stats } }
  | .start_job jobId agent now =>
    match find_job st.checklist.jobs jobId with
    | none => st
    | some _ =>
      let jobs := updateFirstJob jobId
        (fun j => { j with
          status := .in_progress
          execution := { j.execution with agent := some agent, started_at := some now } })
        st.checklist.jobs
      let js := st.checklist.stats.jobs
      let js := if 0 < js.pending then { js with pending := js.pending - 1 } else js
      doSave now
        { st with checklist :=
          { st.checklist with jobs := jobs, stats := { st.checklist.stats with jobs := js } } }
  | .complete_job jobId result now =>
    match find_job st.checklist.jobs jobId with
    | none => st
    | some job =>
      let jobs := updateFirstJob jobId
        (fun j =>
          let ex := { j.execution with completed_at := some now }
          let ex := match ex.started_at with
            | some t0 => { ex with duration_seconds := some ((now - t0) % 86400) }
            | none => ex
          { j with
            status := if result.success then .completed else .failed
            execution := ex
            result := some result })
        st.checklist.jobs
      let stats := st.checklist.stats
      let stats :=
        if result.success then
          let stats := { stats with jobs := { stats.jobs with completed := stats.jobs.completed + 1 } }
          match job.type with
          | .full_crawl => { stats with last_full_crawl := some now }
          | .incremental => { stats with last_incremental := some now }
          | _ => stats
        else { stats with jobs := { stats.jobs with failed := stats.jobs.failed + 1 } }
      doSave now
        { st with checklist := { st.checklist with jobs := jobs, stats := stats } }
  | .add_or_update a now =>
    doSave now { st with checklist := (add_or_update_product st.checklist a now).1 }
  | .log_error jobId etype message productId url now =>
    let err : ErrorEntry :=
      { id := "ERR-" ++ padNum 3 (st.checklist.errors.length + 1)
        timestamp := now
        job_id := jobId
        product_id := productId
        type := etype
        url := url
        message := message }
    doSave now
      { st with checklist := { st.checklist with errors := st.checklist.errors ++ [err] } }
  | .resolve_error errorId now =>
    if st.checklist.errors.any (fun e => e.id == errorId) then
      let errors := updateFirstError errorId (fun e => { e with resolved := true }) st.checklist.errors
      doSave now { st with checklist := { st.checklist with errors := errors } }
    else st
  | .sync_metadata cr now =>
    doSave now { st with checklist := sync_from_metadata st.checklist cr now }

/-! ## `ImageDownloader` (src/downloader.py)

The file system and the HTTP transport are an explicit environment:
`fileExists` models `filepath.exists()`, and `fetchOk url = false` models a
fetch whose `httpx.HTTPError` (transport error or, via `raise_for_status`,
non-2xx status) `download_image` catches and converts to `False`. -/

/-- Download-time environment of one `download_product_images` call. -/
structure DlEnv where
  fileExists : String → Bool
  fetchOk : String → Bool

/-- Model of `pathlib.Path(path).suffix`: the part of the final path component
from its last dot on, empty when the dot is leading or trailing or absent. -/
def pathSuffix (path : List Char) : List Char :=
  let name := (path.reverse.takeWhile (· ≠ '/')).reverse
  let afterDot := name.reverse.takeWhile (· ≠ '.')
  if afterDot.length = name.length then []
  else
    let i := name.length - afterDot.length - 1
    if i = 0 then []
    else if afterDot = [] then []
    else '.' :: afterDot.reverse

/-- `ImageDownloader._get_filename`:
`{product_id}_{index:02d}{ext}` with the URL path's lowercased suffix when it
is a recognized image extension, else `.jpg`. -/
def get_filename (product_id : String) (index : Nat) (url : String) : String :=
  let ext0 := (pathSuffix (urlPath url.toList)).map Char.toLower
  let ext := if ext0 = [] then ".jpg".toList
    else if ¬ IMAGE_EXTENSIONS.contains ext0 then ".jpg".toList
    else ext0
  ⟨product_id.toList ++ '_' :: (padNum 2 index).toList ++ ext⟩

/-- First loop of `download_product_images`: existing files become records at
once, the rest become `(url, filepath, filename)` download tasks. -/
def skipPass (env : DlEnv) (output_dir product_id : String) (now : Nat) :
    Nat → List String → List ProductImage × List (String × String × String)
  | _, [] => ([], [])
  | i, url :: rest =>
    let filename := get_filename product_id i url
    let filepath := output_dir ++ "/" ++ filename
    let r := skipPass env output_dir product_id now (i + 1) rest
    if env.fileExists filepath then
      ({ filename := filename, original_url := url, local_path := filepath,
         downloaded_at := now } :: r.1, r.2)
    else (r.1, (url, filepath, filename) :: r.2)

/-- Second loop of `download_product_images`: fetch each task, keeping a
record on success and dropping the URL on a caught fetch failure. -/
def fetchPass (env : DlEnv) (now : Nat) (tasks : List (String × String × String)) :
    List ProductImage :=
  tasks.filterMap fun t =>
    if env.fetchOk t.1 then
      some { filename := t.2.2, original_url := t.1, local_path := t.2.1, downloaded_at := now }
    else none

/-- `ImageDownloader.download_product_images` (images are indexed from 1). -/
def download_product_images (env : DlEnv) (output_dir product_id : String)
    (image_urls : List String) (now : Nat) : List ProductImage :=
  let r := skipPass env output_dir product_id now 1 image_urls
  r.1 ++ fetchPass env now r.2

/-- A URL at 1-based index `i` neither has its target file on disk nor
fetches successfully: `download_product_images` produces no record for it. -/
def dlFails (env : DlEnv) (output_dir product_id : String) (i : Nat) (url : String) : Bool :=
  ¬ env.fileExists (output_dir ++ "/" ++ get_filename product_id i url) && ¬ env.fetchOk url

/-- 1-based enumeration, `enumerate(image_urls, 1)`. -/
def enumFrom : Nat → List α → List (Nat × α)
  | _, [] => []
  | i, x :: xs => (i, x) :: enumFrom (i + 1) xs

/-! ### Metadata store (src/downloader.py, load side)

`json.loads` plus `CrawlResult.model_validate` are external code; they are
modelled as an abstract `parse` function of the environment that returns
`none` exactly when the Python pair raises (the `except` arm of
`load_metadata`). -/

/-- Environment of the metadata store: the file's content when it exists and
the parser/validator for it. -/
structure MetaEnv where
  metadataContents : Option String
  parse : String → Option CrawlResult

/-- `ImageDownloader.load_metadata`: `None` when the file does not exist or
its content fails to parse and validate. -/
def load_metadata (env : MetaEnv) : Option CrawlResult :=
  match env.metadataContents with
  | none => none
  | some s => env.parse s

/-- `ImageDownloader.get_downloaded_product_ids` (the Python `set` of ids is
modelled by the list of ids, queried only through membership). -/
def get_downloaded_product_ids (env : MetaEnv) : List String :=
  match load_metadata env with
  | some m => m.products.map (fun p => p.id)
  | none => []

/-! ## `GGStoreCrawler.get_product_urls` (src/crawler.py)

The rendered listing pages are an environment: `pages n` is the list of
`get_attribute("href")` results of the anchor elements matching the product
selector on page `n`.  The loop counter is the number of further pages the
hard 50-page ceiling still allows: the source increments `page_num` and stops
when it exceeds 50, the model decrements `counter` from `50 - page_num` and
stops at zero.  What each requested page contributed is recorded in a trace
alongside the source-faithful URL list. -/

/-- Crawler base URL. -/
def BASE_URL : String := "https://ggstore.com"

/-- The inner per-page filter of `get_product_urls`: keep hrefs containing
`/products/`, absolutize, and drop URLs already collected on this or earlier
pages. -/
def pageUrls (links : List (Option String)) (product_urls : List String) : List String :=
  links.foldl
    (fun acc href =>
      match href with
      | none => acc
      | some h =>
        if containsSub "/products/".toList h.toList then
          let full := if hasPrefixL "http".toList h.toList then h else BASE_URL ++ h
          if ¬ product_urls.contains full && ¬ acc.contains full then acc ++ [full]
          else acc
        else acc)
    []

/-- Observation of one requested listing page: its number, how many matching
link elements it had, and how many new URLs it contributed. -/
structure PageObs where
  page : Nat
  numLinks : Nat
  numNew : Nat
deriving DecidableEq, Repr

/-- The pagination loop of `get_product_urls`, returning the collected URLs
and the trace of requested pages; structurally recursive on the remaining
page budget. -/
def getUrlsLoop (pages : Nat → List (Option String)) :
    Nat → Nat → List String → List String × List PageObs
  | 0, page_num, product_urls =>
    let links := pages page_num
    if links.isEmpty then
      (product_urls, [⟨page_num, links.length, 0⟩])
    else
      let page_urls := pageUrls links product_urls
      if page_urls.isEmpty then
        (product_urls, [⟨page_num, links.length, 0⟩])
      else
        (product_urls ++ page_urls, [⟨page_num, links.length, page_urls.length⟩])
  | c + 1, page_num, product_urls =>
    let links := pages page_num
    if links.isEmpty then
      (product_urls, [⟨page_num, links.length, 0⟩])
    else
      let page_urls := pageUrls links product_urls
      if page_urls.isEmpty then
        (product_urls, [⟨page_num, links.length, 0⟩])
      else
        let r := getUrlsLoop pages c (page_num + 1) (product_urls ++ page_urls)
        (r.1, ⟨page_num, links.length, page_urls.length⟩ :: r.2)

/-- `GGStoreCrawler.get_product_urls` with its page-request trace. -/
def get_product_urls (pages : Nat → List (Option String)) : List String × List PageObs :=
  getUrlsLoop pages 49 1 []

/-! ## Supporting lemmas for the ledger upsert -/

theorem updateEntry_id (e : ProductEntry) (a : UpsertArgs) (now : Nat) :
    (updateEntry e a now).id = e.id := by
  unfold updateEntry
  cases e.crawl_info <;> by_cases h1 : optStrTruthy a.price <;>
    by_cases h2 : optStrTruthy a.category <;> simp [h1, h2]

theorem updateEntry_category (e : ProductEntry) (a : UpsertArgs) (now : Nat) :
    (updateEntry e a now).category = if optStrTruthy a.category then a.category else e.category := by
  unfold updateEntry
  cases e.crawl_info <;> by_cases h1 : optStrTruthy a.price <;>
    by_cases h2 : optStrTruthy a.category <;> simp [h1, h2]

theorem updateEntry_images (e : ProductEntry) (a : UpsertArgs) (now : Nat) :
    (updateEntry e a now).images =
      { total := a.image_count, downloaded := a.downloaded_count,
        failed := a.failed_count, status := a.status } := by
  unfold updateEntry
  cases e.crawl_info <;> by_cases h1 : optStrTruthy a.price <;>
    by_cases h2 : optStrTruthy a.category <;> simp [h1, h2]

theorem updateEntry_crawl_info (e : ProductEntry) (a : UpsertArgs) (now : Nat)
    (ci : ProductCrawlInfo) (h : e.crawl_info = some ci) :
    (updateEntry e a now).crawl_info =
      some { ci with last_crawled := now, crawl_count := ci.crawl_count + 1, job_id := a.job_id } := by
  unfold updateEntry
  rw [h]
  by_cases h1 : optStrTruthy a.price <;> by_cases h2 : optStrTruthy a.category <;> simp [h1, h2]

theorem find_product_cons_false (p : ProductEntry) (ps : List ProductEntry) (pid : String)
    (hp : (p.id == pid) = false) :
    find_product (p :: ps) pid = find_product ps pid := by
  unfold find_product
  rw [List.find?_cons, hp]

theorem updateFirstProduct_of_none (pid : String) (f : ProductEntry → ProductEntry)
    (ps qs : List ProductEntry) (h : find_product ps pid = none) :
    updateFirstProduct pid f (ps ++ qs) = ps ++ updateFirstProduct pid f qs := by
  induction ps with
  | nil => simp
  | cons p ps ih =>
    have hp : (p.id == pid) = false := by
      cases hpc : (p.id == pid) with
      | true =>
        unfold find_product at h
        rw [List.find?_cons, hpc] at h
        cases h
      | false => rfl
    have hrest : find_product ps pid = none := by
      rw [← find_product_cons_false p ps pid hp]
      exact h
    simp only [List.cons_append, updateFirstProduct, hp, Bool.false_eq_true, if_false]
    rw [show ps.append qs = ps ++ qs from rfl, ih hrest]

theorem add_or_update_absent_products (c : StoreParserChecklist) (a : UpsertArgs) (now : Nat)
    (h : find_product c.products a.product_id = none) :
    (add_or_update_product c a now).1.products = c.products ++ [newEntry a now] := by
  unfold add_or_update_product
  rw [h]

theorem add_or_update_found_products (c : StoreParserChecklist) (a : UpsertArgs) (now : Nat)
    (e : ProductEntry) (h : find_product c.products a.product_id = some e) :
    (add_or_update_product c a now).1.products =
      updateFirstProduct a.product_id (fun p => updateEntry p a now) c.products := by
  unfold add_or_update_product
  rw [h]

/-- Composite state after upserting the same product twice (the shape the
resumability claim quantifies over). -/
def upsertTwice (c : StoreParserChecklist) (a1 a2 : UpsertArgs) (t1 t2 : Nat) :
    StoreParserChecklist :=
  (add_or_update_product (add_or_update_product c a1 t1).1 a2 t2).1

/-- C1.  Upsert convergence: starting from a ledger without the identifier,
two `add_or_update_product` calls with that identifier leave exactly one
matching `ProductEntry`, with `crawl_count = 2`, `last_crawled` equal to the
second call's timestamp and the image totals of the second call. -/
theorem upsert_twice_converges (c : StoreParserChecklist) (a1 a2 : UpsertArgs) (t1 t2 : Nat)
    (hid : a1.product_id = a2.product_id)
    (habsent : find_product c.products a1.product_id = none) :
    ((upsertTwice c a1 a2 t1 t2).products.filter (fun p => p.id == a2.product_id)).length = 1 ∧
    ∃ p ci, find_product (upsertTwice c a1 a2 t1 t2).products a2.product_id = some p ∧
      p.crawl_info = some ci ∧ ci.crawl_count = 2 ∧ ci.last_crawled = t2 ∧
      p.images.total = a2.image_count ∧ p.images.downloaded = a2.downloaded_count ∧
      p.images.failed = a2.failed_count := by
  have hnew_id : (newEntry a1 t1).id = a1.product_id := rfl
  have habsent2 : find_product c.products a2.product_id = none := by
    rw [← hid]; exact habsent
  -- first call creates the entry
  have h1 := add_or_update_absent_products c a1 t1 habsent
  -- the second lookup finds the appended entry
  have hbeq : ((newEntry a1 t1).id == a2.product_id) = true := by
    rw [hnew_id, hid]; exact beq_self_eq_true a2.product_id
  have hfind2 : find_product (c.products ++ [newEntry a1 t1]) a2.product_id
      = some (newEntry a1 t1) := by
    unfold find_product at habsent2 ⊢
    rw [List.find?_append, habsent2]
    simp [List.find?_cons, hbeq]
  have h2 : (upsertTwice c a1 a2 t1 t2).products =
      c.products ++ [updateEntry (newEntry a1 t1) a2 t2] := by
    have hfp : find_product (add_or_update_product c a1 t1).1.products a2.product_id
        = some (newEntry a1 t1) := by rw [h1]; exact hfind2
    unfold upsertTwice
    rw [add_or_update_found_products _ _ _ _ hfp, h1,
      updateFirstProduct_of_none a2.product_id _ c.products _ habsent2]
    simp [updateFirstProduct, hbeq]
  have hupd_id : (updateEntry (newEntry a1 t1) a2 t2).id = a2.product_id := by
    rw [updateEntry_id, hnew_id, hid]
  have hupd_beq : ((updateEntry (newEntry a1 t1) a2 t2).id == a2.product_id) = true := by
    rw [hupd_id]; exact beq_self_eq_true a2.product_id
  constructor
  · rw [h2, List.filter_append]
    have hfil : c.products.filter (fun p => p.id == a2.product_id) = [] := by
      rw [List.filter_eq_nil_iff]
      intro p hp
      have := List.find?_eq_none.mp habsent2 p hp
      simpa [find_product] using this
    rw [hfil]
    simp [hupd_beq]
  · refine ⟨updateEntry (newEntry a1 t1) a2 t2,
      { first_seen := t1, last_crawled := t2, crawl_count := 2, job_id := a2.job_id },
      ?_, ?_, rfl, rfl, ?_⟩
    · rw [h2]
      unfold find_product at habsent2 ⊢
      rw [List.find?_append, habsent2]
      simp [List.find?_cons, hupd_beq]
    · have hci : (newEntry a1 t1).crawl_info =
          some { first_seen := t1, last_crawled := t1, crawl_count := 1, job_id := a1.job_id } := rfl
      rw [updateEntry_crawl_info _ _ _ _ hci]
    · rw [updateEntry_images]
      exact ⟨rfl, rfl, rfl⟩

/-- Concrete arguments for the upsert-convergence witness (two calls with
different image counts). -/
def upsertArgsA : UpsertArgs :=
  { product_id := "classic-tee", name := "Classic Tee",
    url := "https://ggstore.com/products/classic-tee", job_id := "JOB-001",
    image_count := 5, downloaded_count := 4, failed_count := 1 }

/-- Second concrete upsert call for the witness. -/
def upsertArgsB : UpsertArgs :=
  { product_id := "classic-tee", name := "Classic Tee",
    url := "https://ggstore.com/products/classic-tee", job_id := "JOB-002",
    image_count := 3, downloaded_count := 3, failed_count := 0 }

/-- Witness for C1 at a concrete ledger and arguments. -/
theorem upsert_twice_converges_witness :
    ((upsertTwice {} upsertArgsA upsertArgsB 10 20).products.filter
      (fun p => p.id == upsertArgsB.product_id)).length = 1 ∧
    ∃ p ci, find_product (upsertTwice {} upsertArgsA upsertArgsB 10 20).products
        upsertArgsB.product_id = some p ∧
      p.crawl_info = some ci ∧ ci.crawl_count = 2 ∧ ci.last_crawled = 20 ∧
      p.images.total = upsertArgsB.image_count ∧
      p.images.downloaded = upsertArgsB.downloaded_count ∧
      p.images.failed = upsertArgsB.failed_count :=
  upsert_twice_converges {} upsertArgsA upsertArgsB 10 20 rfl rfl

/-! ## C4: durability of the ledger -/

/-- C4.  Durability: every `ChecklistManager` mutation persists the whole
checklist wherever the source calls `save`, so the on-disk document stays
equal to the in-memory state; branches that mutate nothing (missing job or
error id, progress update without a session) keep the equality that already
held. -/
theorem ledger_save_consistent (st : MgrState) (op : LedgerOp)
    (h : st.disk = st.checklist) :
    (step st op).disk = (step st op).checklist := by
  cases op with
  | start_session rand agent now => rfl
  | update_session_progress pd pc ps imgD imgF cp lpu now =>
    unfold step
    cases hs : st.checklist.current_session <;> simp [hs, doSave, h]
  | end_session status now =>
    unfold step
    cases hs : st.checklist.current_session <;> simp [hs, doSave]
  | create_job jobType config priority now => rfl
  | start_job jobId agent now =>
    unfold step
    cases hj : find_job st.checklist.jobs jobId <;> simp [hj, doSave, h]
  | complete_job jobId result now =>
    unfold step
    cases hj : find_job st.checklist.jobs jobId <;> simp [hj, doSave, h]
  | add_or_update a now => rfl
  | log_error jobId etype message productId url now => rfl
  | resolve_error errorId now =>
    unfold step
    by_cases hfound : st.checklist.errors.any (fun e => e.id == errorId) <;>
      simp [hfound, doSave, h]
  | sync_metadata cr now => rfl

/-- Witness for C4: a concrete error-logging operation on a fresh manager
state whose disk and memory agree. -/
theorem ledger_save_consistent_witness :
    (step ⟨{}, {}⟩ (.log_error "JOB-001" .crawl_failed "timeout" none none 5)).disk
      = (step ⟨{}, {}⟩ (.log_error "JOB-001" .crawl_failed "timeout" none none 5)).checklist :=
  ledger_save_consistent ⟨{}, {}⟩ (.log_error "JOB-001" .crawl_failed "timeout" none none 5) rfl

/-! ## C5: the extractor is not total -/

/-- C5.  The markup `<img srcset=",">` makes `parse_product` fail: the srcset
candidate between the quotes splits into empty comma-parts, and
`src.strip().split()[0]` raises `IndexError` (the model's `Except.error`)
instead of returning a candidate dictionary. -/
theorem parse_product_raises_on_empty_srcset :
    parse_product "<img srcset=\",\">" "https://ggstore.com/products/x" = .error () := rfl

/-! ## C10: missing or unreadable metadata -/

/-- C10.  When the metadata file is absent, or its content fails to parse and
validate as a `CrawlResult`, `load_metadata` returns `None` and the
already-downloaded id set is empty, so no product is treated as already
downloaded. -/
theorem load_metadata_absent_or_invalid (env : MetaEnv)
    (h : env.metadataContents = none ∨
      ∀ s, env.metadataContents = some s → env.parse s = none) :
    load_metadata env = none ∧ get_downloaded_product_ids env = [] ∧
      ∀ pid, pid ∉ get_downloaded_product_ids env := by
  have hload : load_metadata env = none := by
    unfold load_metadata
    cases hc : env.metadataContents with
    | none => rfl
    | some s =>
      cases h with
      | inl h0 => rw [h0] at hc; cases hc
      | inr hp => exact hp s hc
  refine ⟨hload, ?_, ?_⟩
  · unfold get_downloaded_product_ids
    rw [hload]
  · intro pid
    unfold get_downloaded_product_ids
    rw [hload]
    simp

/-- Witness for C10: a metadata environment whose file is missing. -/
theorem load_metadata_absent_witness :
    load_metadata ⟨none, fun _ => none⟩ = none ∧
    get_downloaded_product_ids ⟨none, fun _ => none⟩ = [] ∧
    ∀ pid, pid ∉ get_downloaded_product_ids ⟨none, fun _ => none⟩ :=
  load_metadata_absent_or_invalid ⟨none, fun _ => none⟩ (Or.inl rfl)

/-! ## C3: partial-failure containment in the download manager -/

theorem enumFrom_length (i : Nat) (l : List α) : (enumFrom i l).length = l.length := by
  induction l generalizing i with
  | nil => rfl
  | cons x xs ih => simp [enumFrom, ih]

theorem enumFrom_mem_snd {i k : Nat} {u : α} {l : List α}
    (h : (i, u) ∈ enumFrom k l) : u ∈ l := by
  induction l generalizing k with
  | nil => cases h
  | cons x xs ih =>
    simp only [enumFrom, List.mem_cons, Prod.mk.injEq] at h
    cases h with
    | inl h0 =>
      rw [h0.2]
      exact List.mem_cons_self x xs
    | inr h0 => exact List.mem_cons_of_mem x (ih h0)

theorem enumFrom_nodup_index {k : Nat} {u : α} {l : List α} (hnd : l.Nodup)
    {i j : Nat} (hi : (i, u) ∈ enumFrom k l) (hj : (j, u) ∈ enumFrom k l) : i = j := by
  induction l generalizing k with
  | nil => cases hi
  | cons x xs ih =>
    rw [List.nodup_cons] at hnd
    simp only [enumFrom, List.mem_cons, Prod.mk.injEq] at hi hj
    cases hi with
    | inl h1 =>
      cases hj with
      | inl h2 => rw [h1.1, h2.1]
      | inr h2 =>
        exact absurd (h1.2 ▸ enumFrom_mem_snd h2) hnd.1
    | inr h1 =>
      cases hj with
      | inl h2 => exact absurd (h2.2 ▸ enumFrom_mem_snd h1) hnd.1
      | inr h2 => exact ih hnd.2 h1 h2

/-- The number of records equals the number of URLs minus the failures among
the skip/fetch passes, by induction over the URL list at any start index. -/
theorem download_count_from (env : DlEnv) (od pid : String) (now : Nat) :
    ∀ (urls : List String) (i : Nat),
      ((skipPass env od pid now i urls).1
        ++ fetchPass env now (skipPass env od pid now i urls).2).length
      = urls.length
        - ((enumFrom i urls).filter (fun p => dlFails env od pid p.1 p.2)).length := by
  intro urls
  induction urls with
  | nil => intro i; rfl
  | cons url rest ih =>
    intro i
    have hk : ((enumFrom (i + 1) rest).filter (fun p => dlFails env od pid p.1 p.2)).length
        ≤ rest.length := by
      calc ((enumFrom (i + 1) rest).filter (fun p => dlFails env od pid p.1 p.2)).length
          ≤ (enumFrom (i + 1) rest).length := List.length_filter_le _ _
        _ = rest.length := enumFrom_length _ _
    have hih := ih (i + 1)
    simp only [skipPass, enumFrom, List.filter_cons]
    cases hex : env.fileExists (od ++ "/" ++ get_filename pid i url) with
    | true =>
      have hfail : dlFails env od pid i url = false := by
        unfold dlFails
        rw [hex]
        rfl
      simp only [hex, if_true, hfail, Bool.false_eq_true, if_false, List.cons_append,
        List.length_cons, hih]
      omega
    | false =>
      cases hok : env.fetchOk url with
      | true =>
        have hfail : dlFails env od pid i url = false := by
          unfold dlFails
          rw [hok]
          simp
        simp only [hex, Bool.false_eq_true, if_false, hfail, List.length_cons]
        have hsplit : ((skipPass env od pid now (i + 1) rest).1 ++
            fetchPass env now ((url, od ++ "/" ++ get_filename pid i url,
              get_filename pid i url) :: (skipPass env od pid now (i + 1) rest).2)).length
            = ((skipPass env od pid now (i + 1) rest).1
              ++ fetchPass env now (skipPass env od pid now (i + 1) rest).2).length + 1 := by
          simp only [fetchPass, List.filterMap_cons, hok, if_true]
          simp [Nat.add_assoc]
        rw [hsplit, hih]
        omega
      | false =>
        have hfail : dlFails env od pid i url = true := by
          unfold dlFails
          rw [hex, hok]
          rfl
        simp only [hex, Bool.false_eq_true, if_false, hfail, if_true, List.length_cons]
        have hsplit : ((skipPass env od pid now (i + 1) rest).1 ++
            fetchPass env now ((url, od ++ "/" ++ get_filename pid i url,
              get_filename pid i url) :: (skipPass env od pid now (i + 1) rest).2)).length
            = ((skipPass env od pid now (i + 1) rest).1
              ++ fetchPass env now (skipPass env od pid now (i + 1) rest).2).length := by
          simp only [fetchPass, List.filterMap_cons, hok]
          simp
        rw [hsplit, hih]
        omega

/-- Each record produced comes from an enumerated URL that did not fail. -/
theorem download_mem_from (env : DlEnv) (od pid : String) (now : Nat) :
    ∀ (urls : List String) (i : Nat) (r : ProductImage),
      r ∈ (skipPass env od pid now i urls).1
          ++ fetchPass env now (skipPass env od pid now i urls).2 →
      ∃ j u, (j, u) ∈ enumFrom i urls ∧ r.original_url = u ∧
        dlFails env od pid j u = false := by
  intro urls
  induction urls with
  | nil => intro i r hr; cases hr
  | cons url rest ih =>
    intro i r hr
    simp only [skipPass] at hr
    cases hex : env.fileExists (od ++ "/" ++ get_filename pid i url) with
    | true =>
      simp only [hex, if_true, List.cons_append, List.mem_cons] at hr
      cases hr with
      | inl h0 =>
        refine ⟨i, url, ?_, ?_, ?_⟩
        · simp [enumFrom]
        · rw [h0]
        · unfold dlFails
          rw [hex]
          rfl
      | inr h0 =>
        obtain ⟨j, u, hj, hu, hf⟩ := ih (i + 1) r h0
        refine ⟨j, u, ?_, hu, hf⟩
        simp only [enumFrom, List.mem_cons]
        exact Or.inr hj
    | false =>
      simp only [hex, Bool.false_eq_true, if_false] at hr
      cases hok : env.fetchOk url with
      | true =>
        have hr2 : r ∈ (skipPass env od pid now (i + 1) rest).1 ++
            ({ filename := get_filename pid i url, original_url := url,
               local_path := od ++ "/" ++ get_filename pid i url,
               downloaded_at := now } :: fetchPass env now (skipPass env od pid now (i + 1) rest).2) := by
          simpa only [fetchPass, List.filterMap_cons, hok, if_true] using hr
        rw [List.mem_append, List.mem_cons] at hr2
        rcases hr2 with h0 | h0 | h0
        · obtain ⟨j, u, hj, hu, hf⟩ := ih (i + 1) r (List.mem_append.mpr (Or.inl h0))
          refine ⟨j, u, ?_, hu, hf⟩
          simp only [enumFrom, List.mem_cons]
          exact Or.inr hj
        · refine ⟨i, url, by simp [enumFrom], by rw [h0], ?_⟩
          unfold dlFails
          rw [hok]
          simp
        · obtain ⟨j, u, hj, hu, hf⟩ := ih (i + 1) r (List.mem_append.mpr (Or.inr h0))
          refine ⟨j, u, ?_, hu, hf⟩
          simp only [enumFrom, List.mem_cons]
          exact Or.inr hj
      | false =>
        have hr2 : r ∈ (skipPass env od pid now (i + 1) rest).1 ++
            fetchPass env now (skipPass env od pid now (i + 1) rest).2 := by
          simpa only [fetchPass, List.filterMap_cons, hok] using hr
        obtain ⟨j, u, hj, hu, hf⟩ := ih (i + 1) r hr2
        refine ⟨j, u, ?_, hu, hf⟩
        simp only [enumFrom, List.mem_cons]
        exact Or.inr hj

/-- C3.  Partial-failure containment: `download_product_images` returns
exactly `n - k` records, where `k` counts the URLs whose target file is
absent and whose fetch fails; when the canonical URL sequence has no
duplicates, each failing URL is absent from the returned records.  The
embedding is total because `download_image` converts every caught
`httpx.HTTPError` into `False` rather than raising. -/
theorem download_partial_failure (env : DlEnv) (od pid : String)
    (urls : List String) (now : Nat) :
    (download_product_images env od pid urls now).length
      = urls.length - ((enumFrom 1 urls).filter (fun p => dlFails env od pid p.1 p.2)).length ∧
    (urls.Nodup → ∀ i u, (i, u) ∈ enumFrom 1 urls → dlFails env od pid i u = true →
      ∀ r ∈ download_product_images env od pid urls now, ¬ r.original_url = u) := by
  constructor
  · exact download_count_from env od pid now urls 1
  · intro hnd i u hiu hfail r hr hurl
    obtain ⟨j, u', hj, hu', hf⟩ := download_mem_from env od pid now urls 1 r hr
    have huu : u' = u := by rw [← hu', hurl]
    rw [huu] at hj hf
    have hij : i = j := enumFrom_nodup_index hnd hiu hj
    rw [← hij] at hf
    rw [hfail] at hf
    cases hf

/-- Concrete download environment for the C3 witness: the file for index 1
already exists, URLs `u2` and `u4` fail to fetch. -/
def dlEnvW : DlEnv :=
  { fileExists := fun p => p = "out/p_01.jpg"
    fetchOk := fun u => ¬ (u = "u2" || u = "u4") }

/-- Witness for C3: five canonical URLs, two failing fetches, three records,
and the failing URL `u2` absent from the result. -/
theorem download_partial_failure_witness :
    (download_product_images dlEnvW "out" "p" ["u1", "u2", "u3", "u4", "u5"] 7).length = 3 ∧
    ∀ r ∈ download_product_images dlEnvW "out" "p" ["u1", "u2", "u3", "u4", "u5"] 7,
      ¬ r.original_url = "u2" := by
  have h := download_partial_failure dlEnvW "out" "p" ["u1", "u2", "u3", "u4", "u5"] 7
  constructor
  · have hcount : ((enumFrom 1 ["u1", "u2", "u3", "u4", "u5"]).filter
        (fun p => dlFails dlEnvW "out" "p" p.1 p.2)).length = 2 := by decide
    rw [h.1, hcount]
    rfl
  · exact h.2 (by decide) 2 "u2" (by decide) (by decide)

/-! ## C8: pagination termination -/

/-- Per-call specification of the pagination loop: the trace of requested
pages is the consecutive range starting at the current page, its length is
bounded by the remaining page budget plus one, and every requested page but
the last yielded at least one product link and contributed at least one new
URL. -/
theorem getUrlsLoop_spec (pages : Nat → List (Option String)) :
    ∀ (counter page_num : Nat) (acc : List String),
      (getUrlsLoop pages counter page_num acc).2.length ≤ counter + 1 ∧
      (getUrlsLoop pages counter page_num acc).2.map PageObs.page
        = List.range' page_num (getUrlsLoop pages counter page_num acc).2.length 1 ∧
      ∀ k obs, (getUrlsLoop pages counter page_num acc).2[k]? = some obs →
        k + 1 < (getUrlsLoop pages counter page_num acc).2.length →
        obs.numLinks ≠ 0 ∧ obs.numNew ≠ 0 := by
  intro counter
  induction counter with
  | zero =>
    intro page_num acc
    unfold getUrlsLoop
    by_cases h1 : (pages page_num).isEmpty <;>
      by_cases h2 : (pageUrls (pages page_num) acc).isEmpty <;>
        simp [h1, h2, List.range']
  | succ c ih =>
    intro page_num acc
    unfold getUrlsLoop
    by_cases h1 : (pages page_num).isEmpty
    · simp [h1, List.range']
    · by_cases h2 : (pageUrls (pages page_num) acc).isEmpty
      · simp [h1, h2, List.range']
      · simp only [h1, h2, Bool.false_eq_true, if_false]
        obtain ⟨ihlen, ihmap, ihobs⟩ := ih (page_num + 1) (acc ++ pageUrls (pages page_num) acc)
        refine ⟨?_, ?_, ?_⟩
        · simp only [List.length_cons]
          omega
        · simp only [List.map_cons, List.length_cons, List.range'_succ, ihmap]
        · intro k obs hk hlt
          match k with
          | 0 =>
            simp only [List.getElem?_cons_zero, Option.some.injEq] at hk
            rw [← hk]
            constructor
            · simp only [ne_eq, List.length_eq_zero]
              intro hnil
              rw [← List.isEmpty_iff] at hnil
              exact h1 hnil
            · simp only [ne_eq, List.length_eq_zero]
              intro hnil
              rw [← List.isEmpty_iff] at hnil
              exact h2 hnil
          | k' + 1 =>
            simp only [List.getElem?_cons_succ] at hk
            simp only [List.length_cons] at hlt
            exact ihobs k' obs hk (by omega)

/-- C8.  Pagination termination: for every behaviour of the listing pages,
`get_product_urls` (a total function) requests consecutive pages `1, 2, …`,
requests at most 50 of them, and any page other than the last one it
requested yielded at least one product link and contributed at least one new
URL — so it stops as soon as a page yields none. -/
theorem get_product_urls_terminates (pages : Nat → List (Option String)) :
    (get_product_urls pages).2.length ≤ 50 ∧
    (get_product_urls pages).2.map PageObs.page
      = List.range' 1 (get_product_urls pages).2.length 1 ∧
    ∀ k obs, (get_product_urls pages).2[k]? = some obs →
      k + 1 < (get_product_urls pages).2.length →
      obs.numLinks ≠ 0 ∧ obs.numNew ≠ 0 := by
  obtain ⟨h1, h2, h3⟩ := getUrlsLoop_spec pages 49 1 []
  exact ⟨h1, h2, h3⟩

/-- Listing-page behaviour for the C8 witness: two product links on page 1,
page 2 repeats one of them (contributing nothing new). -/
def pagesW : Nat → List (Option String) := fun n =>
  match n with
  | 1 => [some "/products/a", some "/products/b"]
  | 2 => [some "/products/a"]
  | _ => []

/-- Witness for C8: the loop stops after two page requests, and the
non-final page 1 had nonzero links and contributions. -/
theorem get_product_urls_terminates_witness :
    (get_product_urls pagesW).2.length ≤ 50 ∧
    (get_product_urls pagesW).2.map PageObs.page
      = List.range' 1 (get_product_urls pagesW).2.length 1 ∧
    ∀ obs, (get_product_urls pagesW).2[0]? = some obs → obs.numLinks ≠ 0 ∧ obs.numNew ≠ 0 := by
  obtain ⟨h1, h2, h3⟩ := get_product_urls_terminates pagesW
  refine ⟨h1, h2, fun obs hobs => h3 0 obs hobs (by decide)⟩

/-! ## C2: deduplication order of the extracted image URLs -/

theorem ltStrL_irrefl : ∀ as : List Char, ltStrL as as = false := by
  intro as
  induction as with
  | nil => rfl
  | cons a as ih => simp [ltStrL, ih]

theorem ltStr_ne {s t : String} (h : ltStr s t = true) : s ≠ t := by
  intro he
  rw [he] at h
  unfold ltStr at h
  rw [ltStrL_irrefl] at h
  cases h

theorem ltStrL_connex : ∀ as bs : List Char,
    as = bs ∨ ltStrL as bs = true ∨ ltStrL bs as = true := by
  intro as
  induction as with
  | nil =>
    intro bs
    cases bs with
    | nil => exact Or.inl rfl
    | cons b bs' => exact Or.inr (Or.inl rfl)
  | cons a as ih =>
    intro bs
    cases bs with
    | nil => exact Or.inr (Or.inr rfl)
    | cons b bs' =>
      rcases lt_trichotomy a b with h | h | h
      · refine Or.inr (Or.inl ?_)
        simp [ltStrL, h]
      · subst h
        rcases ih bs' with h2 | h2 | h2
        · exact Or.inl (by rw [h2])
        · refine Or.inr (Or.inl ?_)
          simp [ltStrL, lt_irrefl, h2]
        · refine Or.inr (Or.inr ?_)
          simp [ltStrL, lt_irrefl, h2]
      · refine Or.inr (Or.inr ?_)
        simp [ltStrL, h]

theorem ltStr_connex (s t : String) : s = t ∨ ltStr s t = true ∨ ltStr t s = true := by
  rcases ltStrL_connex s.toList t.toList with h | h | h
  · left
    cases s; cases t
    simpa [String.toList] using congrArg String.mk h
  · exact Or.inr (Or.inl h)
  · exact Or.inr (Or.inr h)

theorem mem_insertOrd (x y : String) : ∀ l : List String,
    (y ∈ insertOrd x l ↔ y = x ∨ y ∈ l) := by
  intro l
  induction l with
  | nil => simp [insertOrd]
  | cons z zs ih =>
    unfold insertOrd
    by_cases h1 : ltStr x z = true
    · rw [if_pos h1]
      simp only [List.mem_cons]
    · rw [if_neg h1]
      by_cases h2 : x = z
      · rw [if_pos h2]
        subst h2
        simp only [List.mem_cons]
        tauto
      · rw [if_neg h2]
        simp only [List.mem_cons, ih]
        tauto

theorem ltStrL_trans : ∀ as bs cs : List Char,
    ltStrL as bs = true → ltStrL bs cs = true → ltStrL as cs = true := by
  intro as
  induction as with
  | nil =>
    intro bs cs hab hbc
    cases bs with
    | nil => cases hab
    | cons b bs' =>
      cases cs with
      | nil => cases hbc
      | cons c cs' => rfl
  | cons a as ih =>
    intro bs cs hab hbc
    cases bs with
    | nil => cases hab
    | cons b bs' =>
      cases cs with
      | nil => cases hbc
      | cons c cs' =>
        simp only [ltStrL] at hab hbc ⊢
        by_cases h1 : a < b
        · by_cases h2 : b < c
          · rw [if_pos (lt_trans h1 h2)]
          · rw [if_neg h2] at hbc
            by_cases h3 : c < b
            · rw [if_pos h3] at hbc; cases hbc
            · have hbceq : b = c := le_antisymm (not_lt.mp h3) (not_lt.mp h2)
              rw [if_pos (hbceq ▸ h1)]
        · rw [if_neg h1] at hab
          by_cases h1' : b < a
          · rw [if_pos h1'] at hab; cases hab
          · have habeq : a = b := le_antisymm (not_lt.mp h1') (not_lt.mp h1)
            rw [if_neg h1'] at hab
            by_cases h2 : b < c
            · rw [if_pos (habeq ▸ h2)]
            · rw [if_neg h2] at hbc
              by_cases h3 : c < b
              · rw [if_pos h3] at hbc; cases hbc
              · have hbceq : b = c := le_antisymm (not_lt.mp h3) (not_lt.mp h2)
                rw [if_neg h3] at hbc
                have hacneq : ¬ a < c := by rw [habeq, hbceq]; exact lt_irrefl c
                have hcaneq : ¬ c < a := by rw [habeq, hbceq]; exact lt_irrefl c
                rw [if_neg hacneq, if_neg hcaneq]
                exact ih bs' cs' hab hbc

theorem ltStr_trans {s t u : String} (h1 : ltStr s t = true) (h2 : ltStr t u = true) :
    ltStr s u = true :=
  ltStrL_trans s.toList t.toList u.toList h1 h2

theorem pairwise_insertOrd (x : String) : ∀ l : List String,
    l.Pairwise (fun a b => ltStr a b = true) →
    (insertOrd x l).Pairwise (fun a b => ltStr a b = true) := by
  intro l
  induction l with
  | nil =>
    intro _
    simp [insertOrd]
  | cons z zs ih =>
    intro hp
    rw [List.pairwise_cons] at hp
    unfold insertOrd
    by_cases h1 : ltStr x z = true
    · rw [if_pos h1, List.pairwise_cons]
      refine ⟨?_, List.pairwise_cons.mpr hp⟩
      intro b hb
      rw [List.mem_cons] at hb
      cases hb with
      | inl hz => rw [hz]; exact h1
      | inr hzs => exact ltStr_trans h1 (hp.1 b hzs)
    · rw [if_neg h1]
      by_cases h2 : x = z
      · rw [if_pos h2]
        exact List.pairwise_cons.mpr hp
      · rw [if_neg h2, List.pairwise_cons]
        have hzx : ltStr z x = true := by
          rcases ltStr_connex x z with h | h | h
          · exact absurd h h2
          · exact absurd h h1
          · exact h
        refine ⟨?_, ih hp.2⟩
        intro b hb
        rw [mem_insertOrd] at hb
        cases hb with
        | inl hbx => rw [hbx]; exact hzx
        | inr hbzs => exact hp.1 b hbzs

theorem sortDedup_spec (l : List String) :
    (sortDedup l).Pairwise (fun a b => ltStr a b = true) ∧
    ∀ y, y ∈ sortDedup l ↔ y ∈ l := by
  suffices h : ∀ acc : List String, acc.Pairwise (fun a b => ltStr a b = true) →
      (l.foldl (fun a x => insertOrd x a) acc).Pairwise (fun a b => ltStr a b = true) ∧
      ∀ y, y ∈ l.foldl (fun a x => insertOrd x a) acc ↔ y ∈ l ∨ y ∈ acc by
    obtain ⟨h1, h2⟩ := h [] List.Pairwise.nil
    refine ⟨h1, fun y => ?_⟩
    rw [sortDedup, h2 y]
    simp
  induction l with
  | nil =>
    intro acc hacc
    exact ⟨hacc, fun y => by simp⟩
  | cons x xs ih =>
    intro acc hacc
    obtain ⟨h1, h2⟩ := ih (insertOrd x acc) (pairwise_insertOrd x acc hacc)
    refine ⟨h1, fun y => ?_⟩
    rw [List.foldl_cons, h2 y, mem_insertOrd]
    simp only [List.mem_cons]
    tauto

/-- Strictly sorted lists have no duplicates. -/
theorem pairwise_ltStr_nodup (l : List String)
    (h : l.Pairwise (fun a b => ltStr a b = true)) : l.Nodup :=
  h.imp (fun hab => ltStr_ne hab)

/-- C2 (amended).  The image-URL list of `_extract_image_urls` is
deduplicated after canonicalization, but its order is ascending lexicographic
(`sorted` over the candidate set), not first-encounter order: whenever
extraction succeeds, the output is strictly sorted, duplicate-free, and has
exactly the canonical candidate URLs as members. -/
theorem extract_image_urls_sorted_dedup (html : String) (l : List String)
    (h : extract_image_urls html = .ok l) :
    ∃ cs, imageCandidates html.toList = .ok cs ∧
      l.Pairwise (fun a b => ltStr a b = true) ∧ l.Nodup ∧
      ∀ u, u ∈ l ↔ u ∈ cs := by
  unfold extract_image_urls at h
  cases hc : imageCandidates html.toList with
  | error e => rw [hc] at h; cases h
  | ok cs =>
    rw [hc] at h
    simp only [Except.map] at h
    have hl : l = sortDedup cs := by
      cases h
      rfl
    obtain ⟨h1, h2⟩ := sortDedup_spec cs
    subst hl
    exact ⟨cs, rfl, h1, pairwise_ltStr_nodup _ h1, h2⟩

/-- Markup for the C2 counterexample: the canonical URL ending in `b.jpg` is
encountered strictly before the one ending in `a.jpg`. -/
def markupBA : String :=
  "<img src=\"//ggstore.com/cdn/shop/products/b.jpg\"><img src=\"//ggstore.com/cdn/shop/products/a.jpg\">"

/-- First canonical URL in encounter order on `markupBA`. -/
def urlBjpg : String := "https://ggstore.com/cdn/shop/products/b.jpg"

/-- Second canonical URL in encounter order on `markupBA`. -/
def urlAjpg : String := "https://ggstore.com/cdn/shop/products/a.jpg"

set_option maxRecDepth 4000 in
/-- C2 counterexample: on `markupBA` the canonical encounter sequence is
`[b.jpg-URL, a.jpg-URL]`, yet the extractor returns `[a.jpg-URL, b.jpg-URL]`
— the first-detected URL is not at the first output position, so the output
does not preserve first-seen encounter order. -/
theorem extract_image_urls_not_first_seen :
    imageCandidates markupBA.toList = .ok [urlBjpg, urlAjpg] ∧
    extract_image_urls markupBA = .ok [urlAjpg, urlBjpg] ∧
    urlAjpg ≠ urlBjpg := by
  refine ⟨rfl, rfl, by decide⟩

/-- Markup for the C2 witness: one URL appears twice, a second one once. -/
def markupDup : String :=
  "<img src=\"//ggstore.com/cdn/shop/products/b.jpg\"><img src=\"//ggstore.com/cdn/shop/products/a.jpg\"><img src=\"//ggstore.com/cdn/shop/products/b.jpg\">"

set_option maxRecDepth 4000 in
/-- Witness for the amended C2 on `markupDup`: the output is strictly sorted,
duplicate-free, and carries exactly the candidate members. -/
theorem extract_image_urls_sorted_dedup_witness :
    ∃ cs, imageCandidates markupDup.toList = .ok cs ∧
      ([urlAjpg, urlBjpg] : List String).Pairwise (fun a b => ltStr a b = true) ∧
      ([urlAjpg, urlBjpg] : List String).Nodup ∧
      ∀ u, u ∈ [urlAjpg, urlBjpg] ↔ u ∈ cs :=
  extract_image_urls_sorted_dedup markupDup [urlAjpg, urlBjpg] rfl

/-! ## C6: stats integrity -/

/-- A sequence of `add_or_update_product` calls (each with its timestamp). -/
def applyUpserts (c : StoreParserChecklist) : List (UpsertArgs × Nat) → StoreParserChecklist
  | [] => c
  | (a, t) :: rest => applyUpserts (add_or_update_product c a t).1 rest

/-- Number of product entries currently carrying the given category. -/
def countCat (ps : List ProductEntry) (s : String) : Nat :=
  (ps.filter (fun p => p.category == some s)).length

/-- The stats-integrity property of the claim: `total_products` matches the
entry list and `by_category` matches the live histogram. -/
def statsAgree (c : StoreParserChecklist) : Prop :=
  c.stats.total_products = c.products.length ∧
  ∀ s, lookupCat c.stats.by_category s = countCat c.products s

/-- Every entry carries the category fixed for its identifier. -/
def catConsistent (cat : String → Option String) (c : StoreParserChecklist) : Prop :=
  ∀ p ∈ c.products, p.category = cat p.id

theorem lookupCat_incFirst (c s : String) : ∀ d : List (String × Nat),
    d.any (fun kv => kv.1 == c) = true →
    lookupCat (incFirst d c) s = lookupCat d s + (if c = s then 1 else 0) := by
  intro d
  induction d with
  | nil => intro hmem; cases hmem
  | cons kv r ih =>
    intro hmem
    unfold incFirst lookupCat
    cases hkc : (kv.1 == c) with
    | true =>
      have hkceq : kv.1 = c := eq_of_beq hkc
      cases hks : (kv.1 == s) with
      | true =>
        have hcs : c = s := hkceq ▸ eq_of_beq hks
        simp [lookupCat, hks, hcs]
      | false =>
        have hcs : ¬ c = s := by
          intro h
          rw [← hkceq] at h
          rw [h] at hks
          simp at hks
        simp [lookupCat, hks, hcs]
    | false =>
      have hmem' : r.any (fun kv => kv.1 == c) = true := by
        rw [List.any_cons, hkc] at hmem
        simpa using hmem
      cases hks : (kv.1 == s) with
      | true =>
        have hcs : ¬ c = s := by
          intro h
          have hk : kv.1 = c := by rw [eq_of_beq hks, h]
          rw [hk] at hkc
          simp at hkc
        simp [lookupCat, hks, hcs]
      | false =>
        simp [lookupCat, hks, ih hmem']

theorem lookupCat_append_one (c s : String) : ∀ d : List (String × Nat),
    d.any (fun kv => kv.1 == c) = false →
    lookupCat (d ++ [(c, 1)]) s = lookupCat d s + (if c = s then 1 else 0) := by
  intro d
  induction d with
  | nil =>
    intro _
    by_cases hcs : c = s
    · simp [lookupCat, hcs]
    · have : (c == s) = false := by
        cases h : (c == s) with
        | true => exact absurd (eq_of_beq h) hcs
        | false => rfl
      simp [lookupCat, this, hcs]
  | cons kv r ih =>
    intro hmem
    rw [List.any_cons] at hmem
    have hkc : (kv.1 == c) = false := by
      cases h : (kv.1 == c) with
      | true => rw [h] at hmem; simp at hmem
      | false => rfl
    have hmem' : r.any (fun kv => kv.1 == c) = false := by
      rw [hkc] at hmem
      simpa using hmem
    unfold lookupCat
    cases hks : (kv.1 == s) with
    | true =>
      have hcs : ¬ c = s := by
        intro h
        have hk : kv.1 = c := by rw [eq_of_beq hks, h]
        rw [hk] at hkc
        simp at hkc
      simp [hks, hcs]
    | false =>
      simp [hks, ih hmem']

theorem lookupCat_bumpCat (d : List (String × Nat)) (c s : String) :
    lookupCat (bumpCat d c) s = lookupCat d s + (if c = s then 1 else 0) := by
  unfold bumpCat
  by_cases hmem : d.any (fun kv => kv.1 == c) = true
  · rw [if_pos hmem]
    exact lookupCat_incFirst c s d hmem
  · have hmem' : d.any (fun kv => kv.1 == c) = false := by
      cases h : d.any (fun kv => kv.1 == c) with
      | true => exact absurd h hmem
      | false => rfl
    rw [if_neg hmem]
    exact lookupCat_append_one c s d hmem'

theorem countCat_append_one (ps : List ProductEntry) (p : ProductEntry) (s : String) :
    countCat (ps ++ [p]) s = countCat ps s + (if p.category = some s then 1 else 0) := by
  unfold countCat
  rw [List.filter_append, List.length_append]
  by_cases hc : p.category = some s
  · have : (p.category == some s) = true := by rw [hc]; exact beq_self_eq_true _
    simp [List.filter, this, hc]
  · have : (p.category == some s) = false := by
      cases h : (p.category == some s) with
      | true => exact absurd (eq_of_beq h) hc
      | false => rfl
    simp [List.filter, this, hc]

theorem updateFirstProduct_length (pid : String) (f : ProductEntry → ProductEntry) :
    ∀ ps : List ProductEntry, (updateFirstProduct pid f ps).length = ps.length := by
  intro ps
  induction ps with
  | nil => rfl
  | cons p ps ih =>
    unfold updateFirstProduct
    cases hp : (p.id == pid) with
    | true => simp [hp]
    | false => simp [hp, ih]

theorem countCat_updateFirst (pid : String) (f : ProductEntry → ProductEntry) (s : String) :
    ∀ ps : List ProductEntry,
      (∀ p ∈ ps, (p.id == pid) = true → (f p).category = p.category) →
      countCat (updateFirstProduct pid f ps) s = countCat ps s := by
  intro ps
  induction ps with
  | nil => intro _; rfl
  | cons p ps ih =>
    intro h
    unfold updateFirstProduct
    by_cases hp : (p.id == pid) = true
    · have hcat : (f p).category = p.category :=
        h p (List.mem_cons_self p ps) hp
      rw [if_pos hp]
      unfold countCat
      rw [List.filter_cons, List.filter_cons]
      simp only [hcat]
      cases hcond : (p.category == some s) <;> simp [hcond]
    · have ih' := ih (fun q hq hqid => h q (List.mem_cons_of_mem p hq) hqid)
      rw [if_neg hp]
      unfold countCat at ih' ⊢
      rw [List.filter_cons, List.filter_cons]
      cases hcond : (p.category == some s) <;> simp [hcond, ih']

theorem updateFirstProduct_mem (pid : String) (f : ProductEntry → ProductEntry) :
    ∀ (ps : List ProductEntry) (q : ProductEntry), q ∈ updateFirstProduct pid f ps →
      q ∈ ps ∨ ∃ p ∈ ps, (p.id == pid) = true ∧ q = f p := by
  intro ps
  induction ps with
  | nil => intro q hq; cases hq
  | cons p ps ih =>
    intro q hq
    unfold updateFirstProduct at hq
    cases hp : (p.id == pid) with
    | true =>
      rw [hp] at hq
      simp only [if_true, List.mem_cons] at hq
      cases hq with
      | inl h0 => exact Or.inr ⟨p, List.mem_cons_self p ps, hp, h0⟩
      | inr h0 => exact Or.inl (List.mem_cons_of_mem p h0)
    | false =>
      rw [hp] at hq
      simp only [Bool.false_eq_true, if_false, List.mem_cons] at hq
      cases hq with
      | inl h0 => exact Or.inl (h0 ▸ List.mem_cons_self p ps)
      | inr h0 =>
        cases ih q h0 with
        | inl h1 => exact Or.inl (List.mem_cons_of_mem p h1)
        | inr h1 =>
          obtain ⟨p', hp', hpid', hq'⟩ := h1
          exact Or.inr ⟨p', List.mem_cons_of_mem p hp', hpid', hq'⟩

theorem aup_absent_total (c : StoreParserChecklist) (a : UpsertArgs) (t : Nat)
    (h : find_product c.products a.product_id = none) :
    (add_or_update_product c a t).1.stats.total_products = c.products.length + 1 := by
  unfold add_or_update_product
  rw [h]
  cases hacat : a.category with
  | none => simp
  | some v => by_cases hv : v = "" <;> simp [hv]

theorem aup_absent_bycat (c : StoreParserChecklist) (a : UpsertArgs) (t : Nat)
    (h : find_product c.products a.product_id = none) :
    (add_or_update_product c a t).1.stats.by_category =
      (match a.category with
        | some v => if v = "" then c.stats.by_category else bumpCat c.stats.by_category v
        | none => c.stats.by_category) := by
  unfold add_or_update_product
  rw [h]
  cases hacat : a.category with
  | none => rfl
  | some v => by_cases hv : v = "" <;> simp [hv]

theorem aup_found_stats (c : StoreParserChecklist) (a : UpsertArgs) (t : Nat)
    (e : ProductEntry) (h : find_product c.products a.product_id = some e) :
    (add_or_update_product c a t).1.stats = c.stats := by
  unfold add_or_update_product
  rw [h]

/-- One upsert with a per-identifier-constant, non-empty category preserves
stats integrity and category consistency. -/
theorem upsert_stats_step (cat : String → Option String)
    (hcat : ∀ i, ¬ cat i = some "") (c : StoreParserChecklist) (a : UpsertArgs) (t : Nat)
    (ha : a.category = cat a.product_id)
    (hagree : statsAgree c) (hcons : catConsistent cat c) :
    statsAgree (add_or_update_product c a t).1 ∧
    catConsistent cat (add_or_update_product c a t).1 := by
  cases hfind : find_product c.products a.product_id with
  | none =>
    have hprod := add_or_update_absent_products c a t hfind
    have htot := aup_absent_total c a t hfind
    have hbc := aup_absent_bycat c a t hfind
    have hnewcat : (newEntry a t).category = a.category := rfl
    have hcons' : catConsistent cat (add_or_update_product c a t).1 := by
      intro p hp
      rw [hprod] at hp
      simp only [List.mem_append, List.mem_singleton] at hp
      cases hp with
      | inl h0 => exact hcons p h0
      | inr h0 =>
        rw [h0, hnewcat]
        exact ha
    refine ⟨⟨?_, fun s => ?_⟩, hcons'⟩
    · rw [htot, hprod, List.length_append]
      rfl
    · rw [hbc, hprod, countCat_append_one, hnewcat, ← hagree.2 s]
      cases hacat : a.category with
      | none => simp
      | some v =>
        have hv : ¬ v = "" := by
          intro h0
          exact hcat a.product_id (by rw [← ha, hacat, h0])
        rw [show (match some v with
            | some w => if w = "" then c.stats.by_category else bumpCat c.stats.by_category w
            | none => c.stats.by_category)
            = if v = "" then c.stats.by_category else bumpCat c.stats.by_category v from rfl]
        rw [if_neg hv, lookupCat_bumpCat]
        by_cases hvs : v = s
        · simp [hvs]
        · have hns : ¬ (some v = some s) := fun h0 => hvs (Option.some.inj h0)
          simp [hvs, hns]
  | some e =>
    have hprod := add_or_update_found_products c a t e hfind
    have hstats := aup_found_stats c a t e hfind
    have hpreserve : ∀ p ∈ c.products, (p.id == a.product_id) = true →
        (updateEntry p a t).category = p.category := by
      intro p hp hpid
      rw [updateEntry_category]
      by_cases htr : optStrTruthy a.category = true
      · rw [if_pos htr, ha, ← eq_of_beq hpid]
        exact (hcons p hp).symm
      · rw [if_neg htr]
    have hcons' : catConsistent cat (add_or_update_product c a t).1 := by
      intro q hq
      rw [hprod] at hq
      cases updateFirstProduct_mem _ _ _ _ hq with
      | inl h0 => exact hcons q h0
      | inr h0 =>
        obtain ⟨p, hp, hpid, hq'⟩ := h0
        rw [hq', updateEntry_id, hpreserve p hp hpid]
        exact hcons p hp
    refine ⟨⟨?_, fun s => ?_⟩, hcons'⟩
    · rw [hstats, hprod, updateFirstProduct_length, hagree.1]
    · rw [hstats, hprod, countCat_updateFirst _ _ _ _ hpreserve, hagree.2 s]

/-- C6 (amended).  After any finite sequence of product upserts in which each
identifier always carries the same non-empty (or absent) category,
`stats.total_products` equals the length of the `ProductEntry` list and
`stats.by_category` maps each category to the number of entries currently
carrying it.  (Metadata sync instead overwrites `total_products` with the
`CrawlResult` counts, and changing an identifier's category across upserts
leaves `by_category` counting the creation-time category — see the
counterexample.) -/
theorem stats_integrity_upserts (cat : String → Option String)
    (hcat : ∀ i, ¬ cat i = some "")
    (ops : List (UpsertArgs × Nat))
    (hops : ∀ op ∈ ops, op.1.category = cat op.1.product_id)
    (c : StoreParserChecklist) (hagree : statsAgree c) (hcons : catConsistent cat c) :
    statsAgree (applyUpserts c ops) := by
  induction ops generalizing c with
  | nil => exact hagree
  | cons opt rest ih =>
    obtain ⟨a, t⟩ := opt
    have ha : a.category = cat a.product_id := hops (a, t) (List.mem_cons_self _ _)
    obtain ⟨hagree', hcons'⟩ := upsert_stats_step cat hcat c a t ha hagree hcons
    exact ih (fun op hop => hops op (List.mem_cons_of_mem _ hop))
      (add_or_update_product c a t).1 hagree' hcons'

/-- First upsert of the C6 counterexample: identifier `p` with category `A`. -/
def upsertCatA : UpsertArgs :=
  { product_id := "p", name := "P", url := "https://ggstore.com/products/p",
    job_id := "JOB-001", category := some "A" }

/-- Second upsert of the C6 counterexample: same identifier, category `B`. -/
def upsertCatB : UpsertArgs :=
  { product_id := "p", name := "P", url := "https://ggstore.com/products/p",
    job_id := "JOB-002", category := some "B" }

/-- Ledger state after the two-upsert counterexample sequence. -/
def c6AfterUpserts : StoreParserChecklist :=
  applyUpserts {} [(upsertCatA, 0), (upsertCatB, 1)]

/-- Ledger state after additionally syncing with an empty metadata snapshot. -/
def c6AfterSync : StoreParserChecklist :=
  sync_from_metadata c6AfterUpserts { crawled_at := 2 } 2

/-- C6 counterexample: after upserting the same identifier with category `A`
then category `B`, the histogram still counts `A` and misses `B` (the single
entry carries `B`), and a subsequent metadata sync with an empty `CrawlResult`
sets `total_products` to 0 while one entry remains — both conjuncts of the
claimed invariant fail on explicit mutation sequences. -/
theorem stats_integrity_violated :
    ¬ (lookupCat c6AfterUpserts.stats.by_category "B" = countCat c6AfterUpserts.products "B") ∧
    ¬ (lookupCat c6AfterUpserts.stats.by_category "A" = countCat c6AfterUpserts.products "A") ∧
    ¬ (c6AfterSync.stats.total_products = c6AfterSync.products.length) := by
  refine ⟨?_, ?_, ?_⟩ <;> decide

/-- Concrete upsert sequence for the C6 witness: two identifiers, the first
upserted twice with the constant category `A`, the second without category. -/
def c6OpsW : List (UpsertArgs × Nat) :=
  [(upsertCatA, 0),
   ({ product_id := "q", name := "Q", url := "https://ggstore.com/products/q",
      job_id := "JOB-001" }, 1),
   (upsertCatA, 2)]

/-- Category assignment of the C6 witness operations. -/
def c6CatW : String → Option String := fun i => if i = "p" then some "A" else none

/-- Witness for the amended C6: stats integrity holds after the concrete
sequence, instantiated at categories `A` and `B`. -/
theorem stats_integrity_upserts_witness :
    (applyUpserts {} c6OpsW).stats.total_products = (applyUpserts {} c6OpsW).products.length ∧
    lookupCat (applyUpserts {} c6OpsW).stats.by_category "A"
      = countCat (applyUpserts {} c6OpsW).products "A" ∧
    lookupCat (applyUpserts {} c6OpsW).stats.by_category "B"
      = countCat (applyUpserts {} c6OpsW).products "B" := by
  have hcat : ∀ i, ¬ c6CatW i = some "" := by
    intro i h
    unfold c6CatW at h
    by_cases hi : i = "p"
    · rw [if_pos hi] at h
      exact absurd (Option.some.inj h) (by decide)
    · rw [if_neg hi] at h
      cases h
  have hops : ∀ op ∈ c6OpsW, op.1.category = c6CatW op.1.product_id := by decide
  have h := stats_integrity_upserts c6CatW hcat c6OpsW hops {} ⟨rfl, fun _ => rfl⟩
    (fun p hp => absurd hp (List.not_mem_nil p))
  exact ⟨h.1, h.2 "A", h.2 "B"⟩

/-! ## C7: identifier extraction -/

/-- The path segment following the `products` route marker, when the source's
branch takes it: `products` occurs among the segments and has a successor. -/
def productsSegment (url : String) : Option (List Char) :=
  let stripped := stripChar '/' (urlPath url.toList)
  let parts := stripped.splitOn '/'
  let pl := "products".toList
  if parts.contains pl then
    if parts.indexOf pl + 1 < parts.length then some (parts.getD (parts.indexOf pl + 1) [])
    else none
  else none

/-- C7 counterexample: for the bare storefront URL the parsed path is `/`,
the slash-stripped fallback is empty, and identifier extraction returns the
empty string — the claimed unconditional non-emptiness fails. -/
theorem extract_product_id_empty_on_bare_url :
    extract_product_id "https://ggstore.com/" = "" := rfl

/-- C7 (amended).  Identifier extraction returns the segment after the
`products` marker when the source's branch takes it, and the slash-stripped
hyphenated path otherwise; the result is non-empty whenever the slash-stripped
path is non-empty and the taken `products` successor segment (if any) is
non-empty.  (For URLs with an empty path — such as the bare site root — the
result is the empty string, see the counterexample.) -/
theorem extract_product_id_nonempty (url : String)
    (h1 : ¬ stripChar '/' (urlPath url.toList) = [])
    (h2 : ∀ s, productsSegment url = some s → ¬ s = []) :
    ¬ extract_product_id url = "" := by
  unfold extract_product_id
  unfold productsSegment at h2
  by_cases hc : (stripChar '/' (urlPath url.toList)).splitOn '/' |>.contains "products".toList
  · rw [if_pos hc]
    by_cases hlt : ((stripChar '/' (urlPath url.toList)).splitOn '/').indexOf "products".toList + 1
        < ((stripChar '/' (urlPath url.toList)).splitOn '/').length
    · rw [if_pos hlt]
      have hseg := h2 (((stripChar '/' (urlPath url.toList)).splitOn '/').getD
        (((stripChar '/' (urlPath url.toList)).splitOn '/').indexOf "products".toList + 1) [])
        (by rw [if_pos hc, if_pos hlt])
      intro he
      apply hseg
      have : (⟨((stripChar '/' (urlPath url.toList)).splitOn '/').getD
          (((stripChar '/' (urlPath url.toList)).splitOn '/').indexOf "products".toList + 1) []⟩ : String).data
          = ("" : String).data := by rw [he]
      simpa using this
    · rw [if_neg hlt]
      intro he
      apply h1
      have : ((⟨(stripChar '/' (urlPath url.toList)).map
          (fun c => if c = '/' then '-' else c)⟩ : String)).data = ("" : String).data := by rw [he]
      simp only [String.data] at this
      have hmapnil : (stripChar '/' (urlPath url.toList)).map
          (fun c => if c = '/' then '-' else c) = [] := this
      exact List.map_eq_nil_iff.mp hmapnil
  · rw [if_neg hc]
    intro he
    apply h1
    have : ((⟨(stripChar '/' (urlPath url.toList)).map
        (fun c => if c = '/' then '-' else c)⟩ : String)).data = ("" : String).data := by rw [he]
    simp only [String.data] at this
    have hmapnil : (stripChar '/' (urlPath url.toList)).map
        (fun c => if c = '/' then '-' else c) = [] := this
    exact List.map_eq_nil_iff.mp hmapnil

/-- Witness for the amended C7 at a products URL with query parameters. -/
theorem extract_product_id_nonempty_witness :
    ¬ extract_product_id "https://ggstore.com/products/classic-tee?variant=9" = "" := by
  apply extract_product_id_nonempty
  · decide
  · intro s hs
    have hps : productsSegment "https://ggstore.com/products/classic-tee?variant=9"
        = some "classic-tee".toList := rfl
    rw [hps] at hs
    intro hnil
    rw [hnil] at hs
    cases hs

/-! ## C9: canonicalization idempotence -/

theorem splitFirstChar_not_mem (c : Char) : ∀ l : List Char, c ∉ (splitFirstChar c l).1 := by
  intro l
  induction l with
  | nil => simp [splitFirstChar]
  | cons x xs ih =>
    unfold splitFirstChar
    by_cases hx : x = c
    · rw [if_pos hx]
      simp
    · rw [if_neg hx]
      simp only [List.mem_cons]
      intro h
      cases h with
      | inl h0 => exact hx h0.symm
      | inr h0 => exact ih h0

theorem splitFirstChar_of_not_mem (c : Char) : ∀ l : List Char, c ∉ l →
    splitFirstChar c l = (l, none) := by
  intro l
  induction l with
  | nil => intro _; rfl
  | cons x xs ih =>
    intro h
    rw [List.mem_cons] at h
    push_neg at h
    unfold splitFirstChar
    rw [if_neg (fun he => h.1 he.symm), ih h.2]

theorem splitFirstChar_cons_ne (c x : Char) (xs : List Char) (hx : ¬ x = c) :
    splitFirstChar c (x :: xs)
      = (x :: (splitFirstChar c xs).1, (splitFirstChar c xs).2) := by
  conv_lhs => unfold splitFirstChar
  rw [if_neg hx]

theorem splitFirstChar_append (c : Char) (p t : List Char) (h : c ∉ p) :
    splitFirstChar c (p ++ t)
      = (p ++ (splitFirstChar c t).1, (splitFirstChar c t).2) := by
  induction p with
  | nil => simp
  | cons x p' ih =>
    rw [List.mem_cons] at h
    push_neg at h
    rw [List.cons_append, splitFirstChar_cons_ne c x _ (fun he => h.1 he.symm), ih h.2]
    rfl

theorem splitFirstChar_found (c : Char) (p q : List Char) (h : c ∉ p) :
    splitFirstChar c (p ++ c :: q) = (p, some q) := by
  rw [splitFirstChar_append c p (c :: q) h]
  unfold splitFirstChar
  rw [if_pos rfl]
  simp

theorem splitFirstChar_eq_some (c : Char) : ∀ (l b : List Char),
    (splitFirstChar c l).2 = some b → l = (splitFirstChar c l).1 ++ c :: b := by
  intro l
  induction l with
  | nil => intro b h; cases h
  | cons x xs ih =>
    intro b h
    unfold splitFirstChar at h ⊢
    by_cases hx : x = c
    · rw [if_pos hx] at h ⊢
      simp only [Option.some.injEq] at h
      rw [hx, h]
      rfl
    · rw [if_neg hx] at h ⊢
      simp only at h
      have := ih b h
      simp only [List.cons_append, List.cons.injEq]
      exact ⟨trivial, this⟩

theorem dropQuery_not_mem (l : List Char) : '?' ∉ dropQuery l :=
  splitFirstChar_not_mem '?' l

theorem dropQuery_of_not_mem (l : List Char) (h : '?' ∉ l) : dropQuery l = l := by
  unfold dropQuery
  rw [splitFirstChar_of_not_mem '?' l h]

theorem dropQuery_append (p t : List Char) (h : '?' ∉ p) :
    dropQuery (p ++ t) = p ++ dropQuery t := by
  unfold dropQuery
  rw [splitFirstChar_append '?' p t h]

theorem dropQuery_subset (l : List Char) : ∀ x ∈ dropQuery l, x ∈ l := by
  intro x hx
  unfold dropQuery at hx
  induction l with
  | nil => cases hx
  | cons y ys ih =>
    unfold splitFirstChar at hx
    by_cases hy : y = '?'
    · rw [if_pos hy] at hx
      cases hx
    · rw [if_neg hy] at hx
      simp only [List.mem_cons] at hx
      cases hx with
      | inl h0 => exact h0 ▸ List.mem_cons_self y ys
      | inr h0 => exact List.mem_cons_of_mem y (ih h0)

theorem stripQueryUrl_snd_none (l : List Char) (h : (splitFirstChar '#' l).2 = none) :
    stripQueryUrl l = dropQuery (splitFirstChar '#' l).1 := by
  unfold stripQueryUrl
  rw [h]

theorem stripQueryUrl_snd_some (l frag : List Char)
    (h : (splitFirstChar '#' l).2 = some frag) :
    stripQueryUrl l = dropQuery (splitFirstChar '#' l).1 ++ '#' :: frag := by
  unfold stripQueryUrl
  rw [h]

theorem stripQueryUrl_of_not_mem (l : List Char) (hh : '#' ∉ l) (hq : '?' ∉ l) :
    stripQueryUrl l = l := by
  have hs := splitFirstChar_of_not_mem '#' l hh
  rw [stripQueryUrl_snd_none l (by rw [hs]), hs]
  exact dropQuery_of_not_mem l hq

theorem stripQueryUrl_append (p t : List Char) (hh : '#' ∉ p) (hq : '?' ∉ p) :
    stripQueryUrl (p ++ t) = p ++ stripQueryUrl t := by
  have hs := splitFirstChar_append '#' p t hh
  cases hsnd : (splitFirstChar '#' t).2 with
  | none =>
    rw [stripQueryUrl_snd_none (p ++ t) (by rw [hs, hsnd]),
      stripQueryUrl_snd_none t hsnd, hs, dropQuery_append p _ hq]
  | some frag =>
    rw [stripQueryUrl_snd_some (p ++ t) frag (by rw [hs, hsnd]),
      stripQueryUrl_snd_some t frag hsnd, hs, dropQuery_append p _ hq,
      List.append_assoc]

theorem stripQueryUrl_idem (l : List Char) :
    stripQueryUrl (stripQueryUrl l) = stripQueryUrl l := by
  cases hsnd : (splitFirstChar '#' l).2 with
  | none =>
    rw [stripQueryUrl_snd_none l hsnd]
    have hh : '#' ∉ dropQuery (splitFirstChar '#' l).1 := fun hm =>
      splitFirstChar_not_mem '#' l (dropQuery_subset _ _ hm)
    exact stripQueryUrl_of_not_mem _ hh (dropQuery_not_mem _)
  | some frag =>
    rw [stripQueryUrl_snd_some l frag hsnd]
    have hh : '#' ∉ dropQuery (splitFirstChar '#' l).1 := fun hm =>
      splitFirstChar_not_mem '#' l (dropQuery_subset _ _ hm)
    have hfound := splitFirstChar_found '#' (dropQuery (splitFirstChar '#' l).1) frag hh
    rw [stripQueryUrl_snd_some _ frag (by rw [hfound]), hfound]
    rw [dropQuery_of_not_mem _ (dropQuery_not_mem _)]

theorem hasPrefixL_append_self : ∀ p t : List Char, hasPrefixL p (p ++ t) = true := by
  intro p
  induction p with
  | nil => intro t; rfl
  | cons x p' ih =>
    intro t
    simp [hasPrefixL, ih]

theorem hasPrefixL_exists : ∀ p l : List Char, hasPrefixL p l = true → ∃ t, l = p ++ t := by
  intro p
  induction p with
  | nil => intro l _; exact ⟨l, rfl⟩
  | cons x p' ih =>
    intro l h
    cases l with
    | nil => cases h
    | cons y ys =>
      unfold hasPrefixL at h
      rw [Bool.and_eq_true] at h
      obtain ⟨t, ht⟩ := ih ys h.2
      refine ⟨t, ?_⟩
      rw [List.cons_append, ← ht]
      have : x = y := of_decide_eq_true h.1
      rw [this]

theorem hasPrefixL_colon_swap (pat : List Char) (hpat : ':' ∉ pat) :
    ∀ (p x y : List Char),
      hasPrefixL pat (p ++ ':' :: x) = hasPrefixL pat (p ++ ':' :: y) := by
  intro p
  induction p generalizing pat with
  | nil =>
    intro x y
    cases pat with
    | nil => rfl
    | cons a pat' =>
      rw [List.mem_cons] at hpat
      push_neg at hpat
      simp only [List.nil_append]
      unfold hasPrefixL
      have ha : ¬ a = ':' := fun he => hpat.1 he.symm
      simp [ha]
  | cons b p' ih =>
    intro x y
    cases pat with
    | nil => rfl
    | cons a pat' =>
      rw [List.mem_cons] at hpat
      push_neg at hpat
      simp only [List.cons_append]
      unfold hasPrefixL
      rw [ih pat' hpat.2 x y]

theorem schemeChar_not_special (ch : Char) (h : schemeChar ch = true) :
    ¬ ch = '#' ∧ ¬ ch = '?' ∧ ¬ ch = ':' := by
  refine ⟨?_, ?_, ?_⟩ <;> intro he <;> rw [he] at h <;> exact absurd h (by decide)

theorem schemeSplit_eq_some (l s r : List Char) (h : schemeSplit l = some (s, r)) :
    l = s ++ ':' :: r ∧ ':' ∉ s ∧
      (∃ c cs, s = c :: cs ∧ c.isAlpha = true) ∧ s.all schemeChar = true := by
  unfold schemeSplit at h
  cases hsnd : (splitFirstChar ':' l).2 with
  | none =>
    rw [hsnd] at h
    simp only [schemeSplitAux] at h
    cases h
  | some rest =>
    rw [hsnd] at h
    cases hfst : (splitFirstChar ':' l).1 with
    | nil =>
      rw [hfst] at h
      simp only [schemeSplitAux] at h
      cases h
    | cons c cs =>
      rw [hfst] at h
      simp only [schemeSplitAux] at h
      by_cases hcond : (c.isAlpha && (c :: cs).all schemeChar) = true
      · rw [if_pos hcond] at h
        simp only [Option.some.injEq, Prod.mk.injEq] at h
        obtain ⟨hs, hr⟩ := h
        rw [Bool.and_eq_true] at hcond
        have hl := splitFirstChar_eq_some ':' l rest hsnd
        rw [hfst] at hl
        have hnc : ':' ∉ c :: cs := hfst ▸ splitFirstChar_not_mem ':' l
        rw [← hs, ← hr]
        exact ⟨hl, hnc, ⟨c, cs, rfl, hcond.1⟩, hcond.2⟩
      · rw [if_neg hcond] at h
        cases h

theorem schemeSplit_build (c : Char) (cs r : List Char)
    (hca : c.isAlpha = true) (hall : (c :: cs).all schemeChar = true)
    (hnc : ':' ∉ c :: cs) :
    schemeSplit ((c :: cs) ++ ':' :: r) = some (c :: cs, r) := by
  have hfound := splitFirstChar_found ':' (c :: cs) r hnc
  have h1 : (splitFirstChar ':' ((c :: cs) ++ ':' :: r)).1 = c :: cs := by rw [hfound]
  have h2 : (splitFirstChar ':' ((c :: cs) ++ ':' :: r)).2 = some r := by rw [hfound]
  unfold schemeSplit
  rw [h2, h1]
  simp only [schemeSplitAux]
  rw [if_pos (by rw [hca, hall]; rfl)]

theorem urljoinBase_some (rel s r : List Char) (h : schemeSplit rel = some (s, r))
    (hne : ¬ rel = []) :
    urljoinBase rel =
      (if s.map Char.toLower = "https".toList then
        (if hasPrefixL "//".toList r = true then "https:".toList ++ r
         else "https://ggstore.com/".toList ++ r)
       else rel) := by
  unfold urljoinBase
  rw [if_neg hne, h]
  simp only [urljoinBaseCore]

theorem urljoinBase_foreign_scheme (v s r : List Char)
    (h : schemeSplit v = some (s, r))
    (hns : ¬ s.map Char.toLower = "https".toList) : urljoinBase v = v := by
  have hv : ¬ v = [] := by
    intro hveq
    rw [hveq] at h
    simp [schemeSplit, schemeSplitAux, splitFirstChar] at h
  rw [urljoinBase_some v s r h hv, if_neg hns]

theorem hasPrefixL_slashes_false (t : List Char) :
    hasPrefixL "//".toList ("http".toList ++ t) = false := rfl

theorem norm_http_case (t : List Char) :
    stripQueryUrl (schemeFix (stripQueryUrl ("http".toList ++ t)))
      = stripQueryUrl ("http".toList ++ t) := by
  have hq : ('?' : Char) ∉ "http".toList := by decide
  have hh : ('#' : Char) ∉ "http".toList := by decide
  rw [stripQueryUrl_append "http".toList t hh hq]
  unfold schemeFix
  rw [if_neg (by rw [hasPrefixL_slashes_false]; exact Bool.false_ne_true),
    if_pos (hasPrefixL_append_self "http".toList (stripQueryUrl t)),
    stripQueryUrl_append "http".toList _ hh hq, stripQueryUrl_idem]

theorem norm_scheme_case (v s r : List Char) (hsp : schemeSplit v = some (s, r))
    (hns : ¬ s.map Char.toLower = "https".toList)
    (hnh : ¬ hasPrefixL "http".toList v = true) :
    stripQueryUrl (schemeFix (stripQueryUrl v)) = stripQueryUrl v := by
  obtain ⟨hveq, hnc, ⟨c, cs, hscons, hca⟩, hall⟩ := schemeSplit_eq_some v s r hsp
  have hq : ('?' : Char) ∉ s := fun hm =>
    absurd (List.all_eq_true.mp hall _ hm) (by decide)
  have hh : ('#' : Char) ∉ s := fun hm =>
    absurd (List.all_eq_true.mp hall _ hm) (by decide)
  have hqc : ('?' : Char) ∉ s ++ [':'] := by
    intro hm
    rw [List.mem_append, List.mem_singleton] at hm
    cases hm with
    | inl h0 => exact hq h0
    | inr h0 => cases h0
  have hhc : ('#' : Char) ∉ s ++ [':'] := by
    intro hm
    rw [List.mem_append, List.mem_singleton] at hm
    cases hm with
    | inl h0 => exact hh h0
    | inr h0 => cases h0
  have hshape : v = (s ++ [':']) ++ r := by
    rw [hveq, List.append_assoc]
    rfl
  have hv' : stripQueryUrl v = (s ++ [':']) ++ stripQueryUrl r := by
    rw [hshape, stripQueryUrl_append _ _ hhc hqc]
  have hv'' : stripQueryUrl v = s ++ ':' :: stripQueryUrl r := by
    rw [hv', List.append_assoc]
    rfl
  -- the stripped URL still carries the same foreign scheme
  have hbuild : schemeSplit (stripQueryUrl v) = some (s, stripQueryUrl r) := by
    rw [hv'', hscons]
    rw [hscons] at hall hnc
    exact schemeSplit_build c cs (stripQueryUrl r) hca hall hnc
  have hca' : ¬ ('/' : Char) = c := by
    intro he
    rw [← he] at hca
    exact absurd hca (by decide)
  have hslash : hasPrefixL "//".toList (stripQueryUrl v) = false := by
    rw [hv'', hscons]
    simp only [List.cons_append, hasPrefixL]
    rw [decide_eq_false hca']
    rfl
  have hhttp : hasPrefixL "http".toList (stripQueryUrl v) = false := by
    have hswap := hasPrefixL_colon_swap "http".toList (by decide) s (stripQueryUrl r) r
    rw [hv'', hswap, ← hveq]
    cases hres : hasPrefixL "http".toList v with
    | true => exact absurd hres hnh
    | false => rfl
  unfold schemeFix
  rw [if_neg (by rw [hslash]; exact Bool.false_ne_true),
    if_neg (by rw [hhttp]; exact Bool.false_ne_true),
    urljoinBase_foreign_scheme (stripQueryUrl v) s (stripQueryUrl r) hbuild hns,
    stripQueryUrl_idem]

theorem schemeFix_stable (w : List Char) :
    stripQueryUrl (schemeFix (stripQueryUrl (schemeFix w))) = stripQueryUrl (schemeFix w) := by
  by_cases h1 : hasPrefixL "//".toList w = true
  · have hfix : schemeFix w = "http".toList ++ ("s:".toList ++ w) := by
      unfold schemeFix
      rw [if_pos h1]
      rfl
    rw [hfix]
    exact norm_http_case _
  · by_cases h2 : hasPrefixL "http".toList w = true
    · have hfix : schemeFix w = w := by
        unfold schemeFix
        rw [if_neg h1, if_pos h2]
      obtain ⟨t, ht⟩ := hasPrefixL_exists "http".toList w h2
      rw [hfix, ht]
      exact norm_http_case t
    · have hfix : schemeFix w = urljoinBase w := by
        unfold schemeFix
        rw [if_neg h1, if_neg h2]
      rw [hfix]
      by_cases hv : w = []
      · rw [hv]
        have : urljoinBase [] = "http".toList ++ "s://ggstore.com".toList := rfl
        rw [this]
        exact norm_http_case _
      · cases hsp : schemeSplit w with
        | some sr =>
          obtain ⟨s, r⟩ := sr
          rw [urljoinBase_some w s r hsp hv]
          by_cases hlow : s.map Char.toLower = "https".toList
          · rw [if_pos hlow]
            by_cases hpr : hasPrefixL "//".toList r = true
            · rw [if_pos hpr]
              have : "https:".toList ++ r = "http".toList ++ ("s:".toList ++ r) := rfl
              rw [this]
              exact norm_http_case _
            · rw [if_neg hpr]
              have : "https://ggstore.com/".toList ++ r
                  = "http".toList ++ ("s://ggstore.com/".toList ++ r) := rfl
              rw [this]
              exact norm_http_case _
          · rw [if_neg hlow]
            exact norm_scheme_case w s r hsp hlow h2
        | none =>
          have hcore : urljoinBase w = urljoinBaseCore none w := by
            unfold urljoinBase
            rw [if_neg hv, hsp]
          rw [hcore]
          simp only [urljoinBaseCore]
          by_cases hp1 : hasPrefixL "/".toList w = true
          · rw [if_pos hp1]
            have : baseUrl ++ w = "http".toList ++ ("s://ggstore.com".toList ++ w) := rfl
            rw [this]
            exact norm_http_case _
          · rw [if_neg hp1]
            by_cases hp2 : (hasPrefixL "?".toList w || hasPrefixL "#".toList w) = true
            · rw [if_pos hp2]
              have : baseUrl ++ w = "http".toList ++ ("s://ggstore.com".toList ++ w) := rfl
              rw [this]
              exact norm_http_case _
            · rw [if_neg hp2]
              have : "https://ggstore.com/".toList ++ w
                  = "http".toList ++ ("s://ggstore.com/".toList ++ w) := rfl
              rw [this]
              exact norm_http_case _

/-- C9 (amended).  Canonicalization is idempotent on every URL whose first
normalization pass leaves no further decodable HTML entity: if
`html.unescape` fixes `_normalize_url(u)`, then normalizing twice equals
normalizing once.  (A URL with a double-escaped entity such as `&amp;amp;`
decodes once per pass, so the unrestricted claim fails — see the
counterexample.) -/
theorem normalize_url_idem_of_unescape_fixed (u : List Char)
    (h : htmlUnescape (normalizeUrlL u) = normalizeUrlL u) :
    normalizeUrlL (normalizeUrlL u) = normalizeUrlL u := by
  have h' : htmlUnescape (stripQueryUrl (schemeFix (htmlUnescape u)))
      = stripQueryUrl (schemeFix (htmlUnescape u)) := h
  show stripQueryUrl (schemeFix (htmlUnescape (stripQueryUrl (schemeFix (htmlUnescape u)))))
    = stripQueryUrl (schemeFix (htmlUnescape u))
  rw [h']
  exact schemeFix_stable (htmlUnescape u)

/-- URL with a double-escaped ampersand for the C9 counterexample. -/
def doubleEscapedUrl : List Char :=
  "https://ggstore.com/cdn/shop/products/a&amp;amp;b.jpg".toList

/-- C9 counterexample: on a URL containing `&amp;amp;`, the first
normalization pass decodes one level of escaping and the second decodes
another, so `normalize(normalize(u))` differs from `normalize(u)` — the
claimed unconditional idempotence fails. -/
theorem normalize_url_not_idempotent :
    ¬ normalizeUrlL (normalizeUrlL doubleEscapedUrl) = normalizeUrlL doubleEscapedUrl := by
  decide

/-- Witness for the amended C9 at a protocol-relative CDN URL with a width
query parameter. -/
theorem normalize_url_idem_witness :
    normalizeUrlL (normalizeUrlL "//ggstore.com/cdn/shop/products/tee.jpg?width=500".toList)
      = normalizeUrlL "//ggstore.com/cdn/shop/products/tee.jpg?width=500".toList :=
  normalize_url_idem_of_unescape_fixed
    "//ggstore.com/cdn/shop/products/tee.jpg?width=500".toList (by decide)

end StoreParser
